import Mathlib

/-!
Verification of the data-cutter repository's two core engines against its
natural-language specification: the schema model compiler
(`src/data_cutter/model_maker/maker.py`), the template formatting engine
(`src/data_cutter/template_formatter/formatter.py`,
`src/data_cutter/formatter/base.py`) and the message converters
(`src/data_cutter/template_formatter/message_converter.py`).

Modelling conventions, stated once here:
* Python runtime values are modelled by `PyVal`.  Python `float` is modelled
  as an exact rational (`Rat`); no claim in scope exercises floating-point
  rounding.  The string form of a modelled float is an injective
  `num/den` marker form, not Python's shortest round-trip notation.
* Python dicts are modelled as insertion-ordered association lists, which is
  faithful to CPython dict ordering.  Python `set` iteration order (used when
  the formatter collects referenced variable names) is not specified by
  Python; it is modelled as first-insertion order.
* Unbounded Python recursion is modelled with an explicit fuel argument so
  that every function is structurally recursive; the fuel supplied by the
  public wrappers is large enough for every terminating run.
-/

set_option autoImplicit false

/-- A Python runtime value: strings, ints, bools, floats (modelled as exact
rationals), None, lists, and insertion-ordered dicts. -/
inductive PyVal where
  | pstr (s : String)
  | pint (n : Int)
  | pbool (b : Bool)
  | pfloat (q : Rat)
  | pnone
  | plist (items : List PyVal)
  | pdict (entries : List (String × PyVal))

mutual

/-- Structural size of a value, used as recursion fuel by the functions that
walk nested containers. -/
def pvSize : PyVal → Nat
  | .pstr _ => 1
  | .pint _ => 1
  | .pbool _ => 1
  | .pfloat _ => 1
  | .pnone => 1
  | .plist items => 1 + pvSizeList items
  | .pdict entries => 1 + pvSizeDict entries

/-- Total size of a list of values. -/
def pvSizeList : List PyVal → Nat
  | [] => 0
  | v :: t => pvSize v + pvSizeList t

/-- Total size of a dict's values. -/
def pvSizeDict : List (String × PyVal) → Nat
  | [] => 0
  | e :: t => pvSize e.2 + pvSizeDict t

end

/-- A Python variable scope: a dict from variable names to values. -/
abbrev Scope := List (String × PyVal)

/-- First-match association-list lookup (Python `d[k]` / `k in d`). -/
def slookup {α : Type} : List (String × α) → String → Option α
  | [], _ => none
  | (k', v') :: t, k => if k' = k then some v' else slookup t k

/-- Python dict assignment `d[k] = v`: replace in place if the key exists
(keeping its position), else append. -/
def upsert {α : Type} : List (String × α) → String → α → List (String × α)
  | [], k, v => [(k, v)]
  | (k', v') :: t, k, v => if k' = k then (k, v) :: t else (k', v') :: upsert t k v

/-- The keys of an association list, in order. -/
def scopeKeys {α : Type} (l : List (String × α)) : List String := l.map Prod.fst

/-- Python truthiness: empty strings, zero numbers, `False`, `None` and empty
containers are falsy. -/
def pyTruthy : PyVal → Bool
  | .pstr s => s ≠ ""
  | .pint n => n ≠ 0
  | .pbool b => b
  | .pfloat q => q ≠ 0
  | .pnone => false
  | .plist items => !items.isEmpty
  | .pdict entries => !entries.isEmpty

/-- The decimal digit character for `d < 10` (anything else maps to a
placeholder that the printer never produces). -/
def digitChar : Nat → Char
  | 0 => '0' | 1 => '1' | 2 => '2' | 3 => '3' | 4 => '4'
  | 5 => '5' | 6 => '6' | 7 => '7' | 8 => '8' | 9 => '9'
  | _ => '*'

/-- Python `str.lower` for one ASCII character (non-ASCII case mappings are
not modelled; every name in scope is ASCII).  Defined by explicit cases so
that it reduces inside the kernel. -/
def lowerChar : Char → Char
  | 'A' => 'a' | 'B' => 'b' | 'C' => 'c' | 'D' => 'd' | 'E' => 'e' | 'F' => 'f'
  | 'G' => 'g' | 'H' => 'h' | 'I' => 'i' | 'J' => 'j' | 'K' => 'k' | 'L' => 'l'
  | 'M' => 'm' | 'N' => 'n' | 'O' => 'o' | 'P' => 'p' | 'Q' => 'q' | 'R' => 'r'
  | 'S' => 's' | 'T' => 't' | 'U' => 'u' | 'V' => 'v' | 'W' => 'w' | 'X' => 'x'
  | 'Y' => 'y' | 'Z' => 'z'
  | c => c

/-- Python `str.lower` (ASCII). -/
def pyLower (s : String) : String := ⟨s.data.map lowerChar⟩

/-- Numeric value of a decimal digit character (`99` for non-digits). -/
def charDigitVal : Char → Nat
  | '0' => 0 | '1' => 1 | '2' => 2 | '3' => 3 | '4' => 4
  | '5' => 5 | '6' => 6 | '7' => 7 | '8' => 8 | '9' => 9
  | _ => 99

/-- Decimal digits of `n`, most-significant first, using fuel for structural
recursion (fuel `n + 1` always suffices). -/
def natStrAux : Nat → Nat → List Char
  | 0, _ => []
  | fuel + 1, n =>
    if n < 10 then [digitChar n]
    else natStrAux fuel (n / 10) ++ [digitChar (n % 10)]

/-- Python `str` of a natural number. -/
def natStr (n : Nat) : String := ⟨natStrAux (n + 1) n⟩

/-- Python `str` of an `int`: decimal digits with a leading `-` when
negative. -/
def intStr : Int → String
  | .ofNat n => natStr n
  | .negSucc n => "-" ++ natStr (n + 1)

/-- String form of a modelled float.  Python prints floats in shortest
round-trip decimal notation; the model prints the exact rational as
`num/den`, which is likewise injective.  No claim evaluates this form. -/
def floatStr (q : Rat) : String := intStr q.num ++ "/" ++ natStr q.den

/-- Python `repr` of a value (used for elements inside container `str`),
with fuel for the nested containers. -/
def pyReprF : Nat → PyVal → String
  | 0, _ => ""
  | _ + 1, .pstr s => "'" ++ s ++ "'"
  | _ + 1, .pint n => intStr n
  | _ + 1, .pbool b => if b then "True" else "False"
  | _ + 1, .pfloat q => floatStr q
  | _ + 1, .pnone => "None"
  | fuel + 1, .plist items =>
    "[" ++ String.intercalate ", " (items.map (pyReprF fuel)) ++ "]"
  | fuel + 1, .pdict entries =>
    "\x7b" ++
      String.intercalate ", "
        (entries.map (fun e => "'" ++ e.1 ++ "': " ++ pyReprF fuel e.2)) ++
      "\x7d"

/-- Python `str` of a value: identity on strings, decimal form of numbers,
`True`/`False`, `None`, and `repr`-based forms for containers. -/
def pyStr : PyVal → String
  | .pstr s => s
  | .pint n => intStr n
  | .pbool b => if b then "True" else "False"
  | .pfloat q => floatStr q
  | .pnone => "None"
  | .plist items => pyReprF (pvSize (.plist items)) (.plist items)
  | .pdict entries => pyReprF (pvSize (.pdict entries)) (.pdict entries)

/-- Python `==` on modelled values, with fuel for nested containers: numbers
compare across `int`/`bool`/`float` by numeric value (`True == 1`,
`1 == 1.0`), strings structurally, lists elementwise in order, dicts by
key lookup in both directions. -/
def pyEqF : Nat → PyVal → PyVal → Bool
  | 0, _, _ => false
  | _ + 1, .pstr a, .pstr b => a = b
  | _ + 1, .pnone, .pnone => true
  | _ + 1, .pint a, .pint b => a = b
  | _ + 1, .pint a, .pbool b => a = (if b then 1 else 0)
  | _ + 1, .pint a, .pfloat b => (a : Rat) = b
  | _ + 1, .pbool a, .pint b => (if a then 1 else 0 : Int) = b
  | _ + 1, .pbool a, .pbool b => a = b
  | _ + 1, .pbool a, .pfloat b => ((if a then 1 else 0 : Int) : Rat) = b
  | _ + 1, .pfloat a, .pint b => a = (b : Rat)
  | _ + 1, .pfloat a, .pbool b => a = ((if b then 1 else 0 : Int) : Rat)
  | _ + 1, .pfloat a, .pfloat b => a = b
  | fuel + 1, .plist a, .plist b =>
    a.length = b.length && (a.zip b).all (fun p => pyEqF fuel p.1 p.2)
  | fuel + 1, .pdict a, .pdict b =>
    (a.all fun e => match slookup b e.1 with
      | some w => pyEqF fuel e.2 w
      | none => false) &&
    (b.all fun e => match slookup a e.1 with
      | some w => pyEqF fuel w e.2
      | none => false)
  | _ + 1, _, _ => false

/-- Python `==` wrapper with sufficient fuel. -/
def pyEq (a b : PyVal) : Bool := pyEqF (pvSize a + pvSize b + 1) a b

/-- Python `int()` truncation of a rational toward zero. -/
def ratTrunc (q : Rat) : Int := if q < 0 then -((-q).floor) else q.floor

/-- Parse an unsigned decimal digit run (`none` on empty or non-digit). -/
def parseDigits : List Char → Option Nat
  | [] => none
  | cs =>
    if cs.all (fun c => charDigitVal c < 10) then
      some (cs.foldl (fun acc c => acc * 10 + charDigitVal c) 0)
    else none

/-- Python `int(str)`: optional sign then decimal digits (whitespace
stripping and other integer literal forms are not modelled; no claim uses
them). -/
def parseIntLit (s : String) : Option Int :=
  match s.data with
  | '-' :: rest => (parseDigits rest).map (fun n => -(n : Int))
  | '+' :: rest => (parseDigits rest).map (fun n => (n : Int))
  | cs => (parseDigits cs).map (fun n => (n : Int))

/-- Python `float(str)` for plain decimal literals `[sign]digits[.digits]`
(exponent, `inf` and `nan` forms are not modelled; no claim uses them). -/
def parseFloatLit (s : String) : Option Rat :=
  let core : List Char → Option Rat := fun cs =>
    match cs.splitOn '.' with
    | [whole] => (parseDigits whole).map (fun n => (n : Rat))
    | [whole, frac] =>
      match parseDigits whole, parseDigits frac with
      | some w, some f => some ((w : Rat) + (f : Rat) / ((10 : Rat) ^ frac.length))
      | _, _ => none
    | _ => none
  match s.data with
  | '-' :: rest => (core rest).map (fun q => -q)
  | '+' :: rest => core rest
  | cs => core cs

/-- Left-to-right monadic map over `Except`, stopping at the first error
(Python's behavior of raising out of a loop). -/
def emapM {ε α β : Type} (f : α → Except ε β) : List α → Except ε (List β)
  | [] => .ok []
  | a :: t =>
    match f a with
    | .error e => .error e
    | .ok b => (emapM f t).map (b :: ·)

/-! ## Schema model compiler (`model_maker/maker.py`) -/

/-- `DtypeSpec` from `types/schema.py`.  The inert metadata fields
(`description`, `pattern`, `format`, numeric/array bounds) are carried by the
Python model but never read by the compiler, so they are omitted here. -/
structure DtypeSpec where
  dim : Int := 0
  dtype : String := "string"
  allowed_values : Option (List PyVal) := none
  optional : Bool := false

/-- `FieldSpec` from `types/schema.py`. -/
structure FieldSpec where
  name : String
  specification : DtypeSpec

/-- `CustomDTypeSpec` from `types/schema.py`. -/
structure CustomDTypeSpec where
  name : String
  fields : List FieldSpec

/-- `SchemaConfig` from `types/schema.py`. -/
structure SchemaConfig where
  name : String
  fields : List FieldSpec
  custom_dtypes : List CustomDTypeSpec := []

/-- Errors raised by `SchemaModelMaker` (all `ValueError`/`TypeError` in the
source; the constructors record which message is raised):
`cyclicDefinition name` is `ValueError("Recursive dtype definition is not
allowed: {name}")`, `unknownDtype name` is `ValueError("dtype {name!r} not
supported")`, `unsupportedDim` is `ValueError("dim > 2 not supported for
now")`, `coerceFail` is the `TypeError`/`ValueError` raised by the
`dtype(v)` coercion of an allowed value, and `noFuel` is the modelling
artifact for exhausted recursion fuel (never reached with the fuel supplied
by `make`). -/
inductive MakerErr where
  | cyclicDefinition (name : String)
  | unknownDtype (name : String)
  | unsupportedDim
  | coerceFail
  | noFuel

/-- The runtime type a schema field compiles to: Python primitives, `Bbox`
(`schema_maker/dtypes.py`), a dynamic enumeration, lists, or a Pydantic
model built by `create_model` with `extra="forbid"`.  A model's field list
maps the field name to its compiled type and its `optional` flag. -/
inductive BT where
  | tStr
  | tInt
  | tFloat
  | tBool
  | tBbox
  | tEnum (name : String) (base : BT) (entries : List (String × PyVal))
  | tList (elem : BT)
  | tModel (name : String) (fields : List (String × BT × Bool))

mutual

/-- Structural size of a compiled type (fuel for the validator). -/
def btSize : BT → Nat
  | .tStr => 1
  | .tInt => 1
  | .tFloat => 1
  | .tBool => 1
  | .tBbox => 1
  | .tEnum _ base _ => btSize base + 1
  | .tList elem => btSize elem + 1
  | .tModel _ fields => btFieldsSize fields + 1

/-- Total size of a model's field types. -/
def btFieldsSize : List (String × BT × Bool) → Nat
  | [] => 0
  | e :: t => btSize e.2.1 + btFieldsSize t

end

/-- `SchemaModelMaker._get_primitive_dtype`: case-insensitive mapping of
primitive dtype names to Python scalar types, `none` otherwise. -/
def getPrimitiveDtype (dtype_name : String) : Option BT :=
  let lower := pyLower dtype_name
  if lower = "string" ∨ lower = "str" then some .tStr
  else if lower = "integer" ∨ lower = "int" then some .tInt
  else if lower = "number" ∨ lower = "float" then some .tFloat
  else if lower = "boolean" ∨ lower = "bool" then some .tBool
  else none

/-- `create_dynamic_enum`: `Enum(name, {str(v): v for v in values})` — a
dict keyed by the `str` form of each value, later entries overwriting
earlier ones with the same key. -/
def createDynamicEnum (values : List PyVal) : List (String × PyVal) :=
  values.foldl (fun acc v => upsert acc (pyStr v) v) []

/-- The Python call `dtype(v)` coercing a declared allowed value to the
field's resolved base type: `str(v)` always succeeds, `int(v)`/`float(v)`
succeed on numbers and well-formed literals, `bool(v)` is truthiness, and
calling a `Bbox`/model/other class on one positional argument raises. -/
def coerceBT (base : BT) (v : PyVal) : Except MakerErr PyVal :=
  match base with
  | .tStr => .ok (.pstr (pyStr v))
  | .tInt =>
    match v with
    | .pint n => .ok (.pint n)
    | .pbool b => .ok (.pint (if b then 1 else 0))
    | .pfloat q => .ok (.pint (ratTrunc q))
    | .pstr s =>
      match parseIntLit s with
      | some n => .ok (.pint n)
      | none => .error .coerceFail
    | _ => .error .coerceFail
  | .tFloat =>
    match v with
    | .pint n => .ok (.pfloat n)
    | .pbool b => .ok (.pfloat (if b then 1 else 0))
    | .pfloat q => .ok (.pfloat q)
    | .pstr s =>
      match parseFloatLit s with
      | some q => .ok (.pfloat q)
      | none => .error .coerceFail
    | _ => .error .coerceFail
  | .tBool => .ok (.pbool (pyTruthy v))
  | _ => .error .coerceFail

/-- The mutable compiler state of `SchemaModelMaker`: the built-custom-model
cache `_custom_models` and the in-progress set `_building`. -/
structure MakerState where
  customModels : List (String × BT)
  building : List String

/-- The `_custom_dtype_specs` registry: name to `CustomDTypeSpec`. -/
abbrev Registry := List (String × CustomDTypeSpec)

/-- The `allowed_values` step of `_build_model` (lines 101-105): when the
field declares a truthy list of allowed values, coerce each to the resolved
base type and wrap the base type in a dynamic enum. -/
def applyEnum (modelName fname : String) (spec : DtypeSpec) (dtype0 : BT) :
    Except MakerErr BT :=
  match spec.allowed_values with
  | some vs =>
    if vs.isEmpty then .ok dtype0
    else
      match emapM (coerceBT dtype0) vs with
      | .error e => .error e
      | .ok cvs =>
        .ok (.tEnum (modelName ++ "_" ++ fname ++ "_enum") dtype0
          (createDynamicEnum cvs))
  | none => .ok dtype0

/-- The `dim` expansion of `_build_model` (lines 108-116). -/
def applyDim (dim : Int) (t1 : BT) : Except MakerErr BT :=
  match dim with
  | 0 => .ok t1
  | 1 => .ok (.tList t1)
  | 2 => .ok (.tList (.tList t1))
  | _ => .error .unsupportedDim

/-- One field of `SchemaModelMaker._build_model` (the loop body of lines
94-121): resolve the base dtype via the supplied resolver, wrap it in a
dynamic enum when `allowed_values` is truthy, then expand `dim`. -/
def buildFieldWith (getD : MakerState → String → Except MakerErr (BT × MakerState))
    (modelName : String) (st : MakerState) (f : FieldSpec) :
    Except MakerErr ((BT × Bool) × MakerState) :=
  match getD st f.specification.dtype with
  | .error e => .error e
  | .ok (dtype0, st1) =>
    match applyEnum modelName f.name f.specification dtype0 with
    | .error e => .error e
    | .ok t1 =>
      match applyDim f.specification.dim t1 with
      | .error e => .error e
      | .ok t2 => .ok ((t2, f.specification.optional), st1)

/-- The field loop of `SchemaModelMaker._build_model`, accumulating the
`model_spec_dict` (a Python dict, so a duplicate field name overwrites the
earlier entry in place). -/
def buildFieldsWith (getD : MakerState → String → Except MakerErr (BT × MakerState))
    (modelName : String) :
    MakerState → List FieldSpec → List (String × BT × Bool) →
    Except MakerErr (List (String × BT × Bool) × MakerState)
  | st, [], acc => .ok (acc, st)
  | st, f :: rest, acc =>
    match buildFieldWith getD modelName st f with
    | .error e => .error e
    | .ok ((t, opt), st') =>
      buildFieldsWith getD modelName st' rest (upsert acc f.name (t, opt))

/-- `SchemaModelMaker._get_dtype`, with explicit fuel for the recursion into
custom types: primitives first, then `bbox`, then the built-model cache,
then the cycle check against `_building`, then the registry; a registered
custom type is built by `_build_model` on its spec with its name marked
in-progress, cached, and unmarked. -/
def getDtypeF : Nat → Registry → MakerState → String → Except MakerErr (BT × MakerState)
  | 0, _, _, _ => .error .noFuel
  | fuel + 1, reg, st, dtype_name =>
    match getPrimitiveDtype dtype_name with
    | some p => .ok (p, st)
    | none =>
      if pyLower dtype_name = "bbox" then .ok (.tBbox, st)
      else
        match slookup st.customModels dtype_name with
        | some m => .ok (m, st)
        | none =>
          if st.building.contains dtype_name then
            .error (.cyclicDefinition dtype_name)
          else
            match slookup reg dtype_name with
            | none => .error (.unknownDtype dtype_name)
            | some custom_spec =>
              let st1 : MakerState := { st with building := dtype_name :: st.building }
              match buildFieldsWith (fun s n => getDtypeF fuel reg s n)
                  custom_spec.name st1 custom_spec.fields [] with
              | .error e => .error e
              | .ok (fs, st2) =>
                let model := BT.tModel custom_spec.name fs
                .ok (model,
                  { customModels := upsert st2.customModels dtype_name model,
                    building := st2.building.erase dtype_name })

/-- The registry `make` builds by inserting each of `config.custom_dtypes`
under its name (a Python dict, so a duplicate name keeps the last spec). -/
def cfgRegistry (config : SchemaConfig) : Registry :=
  config.custom_dtypes.foldl (fun acc c => upsert acc c.name c) []

/-- `SchemaModelMaker.make`: reset the cache, the in-progress set and the
registry, register the custom dtype specs, and build the root model.  The
incoming state `st` models the instance state left by any earlier call; the
reset makes it irrelevant.  The fuel `custom_dtypes.length + 1` bounds the
build depth, which never exceeds the number of registered custom types. -/
def make (st : MakerState) (config : SchemaConfig) : Except MakerErr BT :=
  let _ := st
  let st0 : MakerState := { customModels := [], building := [] }
  let reg : Registry := cfgRegistry config
  let fuel := config.custom_dtypes.length + 1
  match buildFieldsWith (fun s n => getDtypeF fuel reg s n) config.name st0 config.fields [] with
  | .error e => .error e
  | .ok (fs, _) => .ok (.tModel config.name fs)

/-- `make` on a fresh `SchemaModelMaker()` instance. -/
def makeNew (config : SchemaConfig) : Except MakerErr BT :=
  make { customModels := [], building := [] } config

/-- Modelled from the spec: the validator contract of the compiled model
(§6 "validate(candidate value) -> (ok, ...)" and §4.1 item 6).  Validation
of the Pydantic model produced by `create_model(..., extra="forbid")` is
library behavior outside this repository: a candidate conforms to a model
only if it is a mapping whose every key is a declared field, whose every
required field is present, and whose field values conform recursively;
scalar fields are checked by structural type (Pydantic's lax coercions are
not modelled; no claim depends on them); an enumeration accepts a candidate
that is `==` to one of its member values; `Bbox` requires exactly the four
integer corner fields. -/
def conformsF : Nat → BT → PyVal → Bool
  | 0, _, _ => false
  | fuel + 1, t, v =>
    match t, v with
    | .tStr, .pstr _ => true
    | .tInt, .pint _ => true
    | .tFloat, .pfloat _ => true
    | .tBool, .pbool _ => true
    | .tBbox, .pdict kvs =>
      kvs.all (fun e => e.1 = "x1" ∨ e.1 = "y1" ∨ e.1 = "x2" ∨ e.1 = "y2") &&
      (["x1", "y1", "x2", "y2"].all fun k =>
        match slookup kvs k with
        | some (.pint _) => true
        | _ => false)
    | .tEnum _ _ entries, v' => (entries.map Prod.snd).any (fun w => pyEq v' w)
    | .tList elem, .plist xs => xs.all (fun x => conformsF fuel elem x)
    | .tModel _ fs, .pdict kvs =>
      kvs.all (fun e => fs.any (fun fe => fe.1 = e.1)) &&
      fs.all (fun fe =>
        match slookup kvs fe.1 with
        | some v' => conformsF fuel fe.2.1 v'
        | none => fe.2.2)
    | _, _ => false

/-- Validation wrapper with sufficient fuel (the recursion depth is bounded
by the structural size of the compiled type). -/
def conforms (t : BT) (v : PyVal) : Bool := conformsF (btSize t) t v

/-! ## Template formatting engine (`template_formatter/formatter.py`) -/

/-- Python exceptions raised (or modelled) during formatting:
`keyError` is the `KeyError` of `str.format` on a missing replacement
field, `valueError` the `ValueError` of `str.format` on malformed braces,
`typeError` models Python failing on a non-mapping where a dict is needed,
`indexError` is `IndexError` from indexing past a list's end,
`validationError` models Pydantic rejecting a non-string `url`,
`externalCall` marks the jinja2 branch (an external library, not
modelled), and `noFuel` is the fuel-exhaustion modelling artifact. -/
inductive PyErr where
  | keyError (name : String)
  | valueError (msg : String)
  | typeError
  | indexError
  | validationError
  | externalCall
  | noFuel

/-- `ContentTemplate` from `types/prompt_template/template.py`: a text
template with its declared `input_variables`, or an image template naming
its input variable. -/
inductive CT where
  | text (content : String) (input_variables : List String)
  | image (input_name : String)

/-- An item of an `IterableContentTemplateGroup`: a content template or a
nested iterable group (with its `input_key`). -/
inductive GroupItem where
  | ctI (c : CT)
  | grpI (items : List GroupItem) (input_key : Option String)

/-- `ContentTemplateGroup`: static (items formatted once) or iterable. -/
inductive CTGroup where
  | static (items : List CT)
  | iterable (items : List GroupItem) (input_key : Option String)

/-- `MessageTemplate`: `type="single"` with one content template, or
`type="iterable"` with content groups and an optional `input_key`. -/
inductive MessageTemplate where
  | single (role : String) (content : CT)
  | iterable (role : String) (contents : List CTGroup) (input_key : Option String)

/-- `PromptTemplate` from `types/prompt_template/template.py` (the
`template_format` field is carried but never read by
`ContentTemplateFormatter`, which always uses `str.format`). -/
structure PromptTemplate where
  name : String
  template_format : String := "f-string"
  templates : List MessageTemplate

/-- The `image_url` payload of an `ImageContentBlock`: either a plain
string or an `ImageUrlObject` (`url`, `detail`, `format`). -/
inductive ImageUrlRep where
  | raw (s : String)
  | obj (url : String) (detail : Option String) (fmt : String)

/-- `ContentBlock` from `types/prompt/content.py`: text or image. -/
inductive ContentBlock where
  | textB (text : String)
  | imageB (image_url : ImageUrlRep)

/-- Python `str.format` over simple named replacement fields: literal text
with `\x7b\x7b`/`\x7d\x7d` escapes; a field name is looked up in the
keyword map, its value rendered with `str`; a missing name raises
`KeyError`, malformed braces raise `ValueError`.  (Attribute/index access,
conversion and format specs inside a field are not modelled; no template in
scope uses them.)  The accumulator holds the reversed characters of the
field name currently being read, if any. -/
def pyFormatAux (vars : Scope) : List Char → Option (List Char) → Except PyErr (List Char)
  | '{' :: '{' :: rest, none => (pyFormatAux vars rest none).map ('{' :: ·)
  | '}' :: '}' :: rest, none => (pyFormatAux vars rest none).map ('}' :: ·)
  | '{' :: rest, none => pyFormatAux vars rest (some [])
  | '}' :: _, none => .error (.valueError "single close brace encountered in format string")
  | '{' :: _, some _ => .error (.valueError "unexpected open brace in field name")
  | '}' :: rest, some acc =>
    let name := String.mk acc.reverse
    match slookup vars name with
    | some v => (pyFormatAux vars rest none).map ((pyStr v).data ++ ·)
    | none => .error (.keyError name)
  | c :: rest, none => (pyFormatAux vars rest none).map (c :: ·)
  | c :: rest, some acc => pyFormatAux vars rest (some (c :: acc))
  | [], none => .ok []
  | [], some _ => .error (.valueError "expected close brace before end of string")

/-- Python `template.format(**variables)`. -/
def pyFormat (template : String) (vars : Scope) : Except PyErr String :=
  (pyFormatAux vars template.data none).map String.mk

/-- `ContentTemplateFormatter._format_text`: format the template content
against the full variable map (the declared `input_variables` are **not**
consulted here) and wrap the result in one text block. -/
def formatText (template : CT) (varMap : Scope) : Except PyErr (List ContentBlock) :=
  match template with
  | .text content _ => (pyFormat content varMap).map (fun s => [.textB s])
  | .image _ => .ok []

/-- `ContentTemplateFormatter._format_image`: look up `input_name`; a truthy
string value becomes one image block with an `ImageUrlObject` (`format=""`);
a missing or falsy value contributes nothing; a truthy non-string fails
Pydantic validation of the `url` field. -/
def formatImage (input_name : String) (varMap : Scope) : Except PyErr (List ContentBlock) :=
  match slookup varMap input_name with
  | some v =>
    if pyTruthy v then
      match v with
      | .pstr s => .ok [.imageB (.obj s none "")]
      | _ => .error .validationError
    else .ok []
  | none => .ok []

/-- `ContentTemplateFormatter.format`: dispatch on the template kind. -/
def contentFormat (c : CT) (varMap : Scope) : Except PyErr (List ContentBlock) :=
  match c with
  | .text content ivs => formatText (.text content ivs) varMap
  | .image input_name => formatImage input_name varMap

/-- Add a variable name to the collected set, preserving first-insertion
order (models the Python `set` used at lines 141-147; CPython set iteration
order is unspecified, see the file header). -/
def addVar (acc : List String) (v : String) : List String :=
  if acc.contains v then acc else acc ++ [v]

/-- The variable names referenced by the group's immediate items: declared
`input_variables` of text templates and `input_name` of image templates;
nested groups contribute nothing. -/
def collectVars (items : List GroupItem) : List String :=
  items.foldl
    (fun acc it =>
      match it with
      | .ctI (.text _ ivs) => ivs.foldl addVar acc
      | .ctI (.image n) => addVar acc n
      | .grpI _ _ => acc)
    []

/-- Strategy 2 of `_find_iteration_source` (lines 158-168): scan every
variable in dict order; the first non-empty list value whose first element
is a dict containing at least one referenced variable is adopted wholesale;
otherwise the source is empty. -/
def scanNested (all_vars : List String) : Scope → List PyVal
  | [] => []
  | (_, v) :: rest =>
    match v with
    | .plist (x :: xs) =>
      match x with
      | .pdict d =>
        if all_vars.any (fun av => (slookup d av).isSome) then x :: xs
        else scanNested all_vars rest
      | _ => scanNested all_vars rest
    | _ => scanNested all_vars rest

/-- One per-index variable map of the parallel-lists branch (lines
183-191): walk the referenced names in order; a name bound to a list is
indexed at `i` (raising `IndexError` past its end), a name bound to a
non-list is passed through, an unbound name is skipped. -/
def buildIterVars (vars : Scope) (i : Nat) : List String → Except PyErr Scope
  | [] => .ok []
  | v :: t =>
    match slookup vars v with
    | none => buildIterVars vars i t
    | some (.plist l) =>
      match l.get? i with
      | some x => (buildIterVars vars i t).map ((v, x) :: ·)
      | none => .error .indexError
    | some w => (buildIterVars vars i t).map ((v, w) :: ·)

/-- `ContentTemplateGroupFormatter._find_iteration_source`.  Strategy 0:
a truthy `input_key` is looked up directly (list of dicts used as-is, any
other list wrapped per-element, anything else yields an empty source).
Otherwise collect the referenced names; with no names the source is empty;
candidate lists among the names drive either the list-of-dicts branch or
the parallel-lists branch (iterating `range(len(first candidate))`); with
no candidate lists fall back to scanning the whole scope. -/
def findIterationSource (items : List GroupItem) (input_key : Option String)
    (vars : Scope) : Except PyErr (List PyVal) :=
  let fallback : Except PyErr (List PyVal) :=
    let all_vars := collectVars items
    if all_vars.isEmpty then .ok []
    else
      match all_vars.filter
          (fun v => match slookup vars v with | some (.plist _) => true | _ => false) with
      | [] => .ok (scanNested all_vars vars)
      | firstVar :: _ =>
        match slookup vars firstVar with
        | some (.plist firstList) =>
          match firstList with
          | .pdict d :: t => .ok (.pdict d :: t)
          | _ =>
            emapM (fun i => (buildIterVars vars i all_vars).map PyVal.pdict)
              (List.range firstList.length)
        | _ => .ok []
  match input_key with
  | some k =>
    if k = "" then fallback
    else
      match slookup vars k with
      | some (.plist l) =>
        match l with
        | .pdict d :: t => .ok (.pdict d :: t)
        | _ => .ok (l.map fun item => .pdict [(k, item)])
      | _ => .ok []
  | none => fallback

/-- Python `{**variables, **item_vars}`: merging a non-mapping raises. -/
def pyMerge (vars : Scope) (item : PyVal) : Except PyErr Scope :=
  match item with
  | .pdict kvs => .ok (kvs.foldl (fun acc e => upsert acc e.1 e.2) vars)
  | _ => .error .typeError

mutual

/-- Structural size of a group item (fuel for nested iteration). -/
def giSize : GroupItem → Nat
  | .ctI _ => 1
  | .grpI items _ => giSizeList items + 1

/-- Total size of a list of group items. -/
def giSizeList : List GroupItem → Nat
  | [] => 0
  | i :: t => giSize i + giSizeList t

end

/-- `ContentTemplateGroupFormatter._format_iterable` together with the item
dispatch of its inner loop (lines 95-118): resolve the iteration source;
for each per-iteration value, merge it over the parent scope and format
every item against the merged scope (nested iterable groups recurse);
concatenate all blocks in iteration order then item order. -/
def fmtGroupItemF : Nat → GroupItem → Scope → Except PyErr (List ContentBlock)
  | 0, _, _ => .error .noFuel
  | _ + 1, .ctI c, vars => contentFormat c vars
  | fuel + 1, .grpI items input_key, vars =>
    match findIterationSource items input_key vars with
    | .error e => .error e
    | .ok src =>
      (emapM (fun itemVars =>
        match pyMerge vars itemVars with
        | .error e => .error e
        | .ok merged =>
          (emapM (fun it => fmtGroupItemF fuel it merged) items).map List.flatten) src).map
        List.flatten

/-- `ContentTemplateGroupFormatter.format`: a static group formats each item
once against the current scope; an iterable group runs the iteration above
(with fuel covering its nesting depth). -/
def groupFormat (g : CTGroup) (vars : Scope) : Except PyErr (List ContentBlock) :=
  match g with
  | .static items => (emapM (fun c => contentFormat c vars) items).map List.flatten
  | .iterable items input_key =>
    fmtGroupItemF (giSizeList items + 1) (.grpI items input_key) vars

/-- One message of `PromptTemplateFormatter.format` (lines 232-265).  For an
iterable message, a truthy `input_key` present in the input selects the
iteration data, a non-list value being wrapped in a one-element list; a
missing or falsy `input_key` yields no iterations.  Each document datum
becomes the variable scope for every content group.  Python would pass a
non-mapping document scope into the group formatter and fail at its first
use of the scope (the exact exception varies); this is modelled as an
immediate `typeError`.  No claim depends on non-mapping document scopes. -/
def fmtMessage (msg : MessageTemplate) (input_data : Scope) :
    Except PyErr (String × List ContentBlock) :=
  match msg with
  | .single role content => (contentFormat content input_data).map (fun bs => (role, bs))
  | .iterable role contents input_key =>
    let iteration_data : List PyVal :=
      match input_key with
      | some k =>
        if k = "" then []
        else
          match slookup input_data k with
          | some (.plist l) => l
          | some v => [v]
          | none => []
      | none => []
    (emapM (fun document_data =>
      match document_data with
      | .pdict kvs => (emapM (fun g => groupFormat g kvs) contents).map List.flatten
      | _ => .error .typeError) iteration_data).map
      (fun bss => (role, bss.flatten))

/-- `PromptTemplateFormatter.format`: one `(role, blocks)` pair per message
template, in order. -/
def formatPrompt (template : PromptTemplate) (input_data : Scope) :
    Except PyErr (List (String × List ContentBlock)) :=
  emapM (fun m => fmtMessage m input_data) template.templates

/-! ## Legacy prompt formatter (`formatter/base.py`) -/

/-- A JSON-like provider message value. -/
inductive JVal where
  | jstr (s : String)
  | jnull
  | jarr (items : List JVal)
  | jobj (entries : List (String × JVal))

/-- `format_string` from `formatter/base.py`: `str.format` for the
`f-string` format; the jinja2 branch calls the external jinja2 library
(not modelled); any other format returns the value unchanged. -/
def format_string (value : String) (varMap : Scope) (template_format : String) :
    Except PyErr String :=
  if template_format = "f-string" then pyFormat value varMap
  else if template_format = "jinja2" then .error .externalCall
  else .ok value

/-- `TextTemplate` from `types/prompt/template.py` (the legacy prompt
types): the template string `value` and its declared `input_variables`. -/
structure BTextTemplate where
  value : String
  input_variables : List String := []

/-- `BasePromptFormatter._process_text_template`: when `input_variables` is
non-empty, restrict the variable map to exactly the declared keys that are
present (absent declared keys are skipped by the comprehension's guard);
when it is empty, format against an empty map; then substitute and wrap in
one text content dict. -/
def processTextTemplate (item : BTextTemplate) (varMap : Scope)
    (template_format : String) : Except PyErr (List JVal) :=
  let filtered_vars : Scope :=
    if item.input_variables.isEmpty then []
    else
      item.input_variables.foldl
        (fun acc k =>
          match slookup varMap k with
          | some v => upsert acc k v
          | none => acc)
        []
  (format_string item.value filtered_vars template_format).map
    (fun txt => [.jobj [("type", .jstr "text"), ("text", .jstr txt)]])

/-! ## Message converters (`template_formatter/message_converter.py`) -/

/-- Pydantic `model_dump()` of a content block, as serialized by the OpenAI
converter. -/
def modelDump (b : ContentBlock) : JVal :=
  match b with
  | .textB t => .jobj [("type", .jstr "text"), ("text", .jstr t)]
  | .imageB (.raw s) => .jobj [("type", .jstr "image_url"), ("image_url", .jstr s)]
  | .imageB (.obj url detail fmt) =>
    .jobj [("type", .jstr "image_url"),
           ("image_url", .jobj [("url", .jstr url),
                                ("detail", match detail with
                                  | some d => .jstr d
                                  | none => .jnull),
                                ("format", .jstr fmt)])]

/-- `OpenAIMessageConverter.convert`. -/
def openaiConvert (content_list : List (String × List ContentBlock)) : List JVal :=
  content_list.map (fun rc =>
    .jobj [("role", .jstr rc.1), ("content", .jarr (rc.2.map modelDump))])

/-- Python `s.startswith(pre)`. -/
def pyStartsWith (s pre : String) : Bool :=
  s.data.take pre.data.length = pre.data

/-- Python `s.split(sep)` for a one-character separator, on the character
list: every (possibly empty) segment between occurrences of `sep`. -/
def splitOnChar (sep : Char) : List Char → List (List Char)
  | [] => [[]]
  | x :: t =>
    match splitOnChar sep t with
    | [] => [[]]
    | h :: r => if x = sep then [] :: h :: r else (x :: h) :: r

/-- Python `s.split(sep)` for a one-character separator. -/
def pySplit (s : String) (sep : Char) : List String :=
  (splitOnChar sep s.data).map String.mk

/-- Python `sep.join(parts)`. -/
def joinSep (sep : String) : List String → String
  | [] => ""
  | [x] => x
  | x :: t => x ++ sep ++ joinSep sep t

/-- Python `s.split(sep, 1)` when it actually splits: the part before the
first separator and everything after it; `none` when the separator does not
occur. -/
def splitFirst (s : String) (sep : Char) : Option (String × String) :=
  match pySplit s sep with
  | [] => none
  | [_] => none
  | h :: t => some (h, joinSep (String.mk [sep]) t)

/-- Media-type extraction of `AnthropicMessageConverter.convert` (lines
104-109): default `image/png`; when the header contains both `:` and `;`,
take `header.split(":")[1].split(";")[0]` unless it is empty. -/
def anthropicMediaType (header : String) : String :=
  if header.data.contains ':' ∧ header.data.contains ';' then
    let media_part := (pySplit ((pySplit header ':').getD 1 "") ';').headD ""
    if media_part ≠ "" then media_part else "image/png"
  else "image/png"

/-- The content items the Anthropic converter emits for one image value:
a `data:` value splits at its first comma into header and payload and
becomes one base64 source object; a `data:` value with no comma is
silently skipped (the `len(parts) == 2` guard appends nothing); any other
value becomes one URL source object. -/
def anthropicImageItems (url : String) : List JVal :=
  if pyStartsWith url "data:" then
    match splitFirst url ',' with
    | some (header, data) =>
      [.jobj [("type", .jstr "image"),
              ("source", .jobj [("type", .jstr "base64"),
                                ("media_type", .jstr (anthropicMediaType header)),
                                ("data", .jstr data)])]]
    | none => []
  else
    [.jobj [("type", .jstr "image"),
            ("source", .jobj [("type", .jstr "url"), ("url", .jstr url)])]]

/-- `AnthropicMessageConverter.convert`. -/
def anthropicConvert (content_list : List (String × List ContentBlock)) : List JVal :=
  content_list.map (fun rc =>
    .jobj [("role", .jstr rc.1),
           ("content", .jarr ((rc.2.map fun b =>
             match b with
             | .textB t => [JVal.jobj [("type", .jstr "text"), ("text", .jstr t)]]
             | .imageB iu =>
               anthropicImageItems (match iu with
                 | .raw s => s
                 | .obj u _ _ => u)).flatten))])

/-- The registered converters. -/
inductive Converter where
  | openai
  | anthropic

/-- `MessageConverterFactory._converters`, the default registry. -/
def converterRegistry : List (String × Converter) :=
  [("openai", .openai), ("anthropic", .anthropic)]

/-- `MessageConverterFactory.create`: lower-case the requested name, look it
up, and raise `ValueError` (carrying the message string) listing the
registered names when absent. -/
def factoryCreate (format_type : String) : Except String Converter :=
  let ft := pyLower format_type
  match slookup converterRegistry ft with
  | some c => .ok c
  | none =>
    .error ("Unsupported format type: " ++ ft ++ ". Supported formats: " ++
      String.intercalate ", " (converterRegistry.map Prod.fst))

/-! ## Utility lemmas -/

theorem emapM_ok_length {ε α β : Type} (f : α → Except ε β) :
    ∀ (l : List α) (l' : List β), emapM f l = .ok l' → l'.length = l.length := by
  intro l
  induction l with
  | nil => intro l' h; simp [emapM] at h; simp [← h]
  | cons a t ih =>
    intro l' h
    simp only [emapM] at h
    cases hfa : f a with
    | error e => rw [hfa] at h; exact absurd h (by simp)
    | ok b =>
      rw [hfa] at h
      cases ht : emapM f t with
      | error e => rw [ht] at h; exact absurd h (by simp [Except.map])
      | ok bs =>
        rw [ht] at h
        simp [Except.map] at h
        subst h
        simp [ih bs ht]

theorem emapM_ok_mem {ε α β : Type} (f : α → Except ε β) :
    ∀ (l : List α) (l' : List β), emapM f l = .ok l' →
      ∀ b ∈ l', ∃ a ∈ l, f a = .ok b := by
  intro l
  induction l with
  | nil => intro l' h; simp [emapM] at h; subst h; simp
  | cons a t ih =>
    intro l' h
    simp only [emapM] at h
    cases hfa : f a with
    | error e => rw [hfa] at h; exact absurd h (by simp)
    | ok b =>
      rw [hfa] at h
      cases ht : emapM f t with
      | error e => rw [ht] at h; exact absurd h (by simp [Except.map])
      | ok bs =>
        rw [ht] at h
        simp [Except.map] at h
        subst h
        intro b' hb'
        rcases List.mem_cons.mp hb' with rfl | hmem
        · exact ⟨a, by simp, hfa⟩
        · obtain ⟨a', ha', hfa'⟩ := ih bs ht b' hmem
          exact ⟨a', by simp [ha'], hfa'⟩

theorem mem_upsert_self {α : Type} (l : List (String × α)) (k : String) (v : α) :
    (k, v) ∈ upsert l k v := by
  induction l with
  | nil => simp [upsert]
  | cons e t ih =>
    simp only [upsert]
    by_cases h : e.1 = k
    · simp [h]
    · simp only [h, if_false]
      exact List.mem_cons_of_mem _ ih

theorem mem_upsert_of_mem {α : Type} (l : List (String × α)) (k : String) (v : α)
    (e : String × α) (he : e ∈ l) (hne : e.1 ≠ k) : e ∈ upsert l k v := by
  induction l with
  | nil => cases he
  | cons e' t ih =>
    simp only [upsert]
    by_cases h : e'.1 = k
    · simp only [h, if_true]
      rcases List.mem_cons.mp he with rfl | hmem
      · exact absurd h hne
      · exact List.mem_cons_of_mem _ hmem
    · simp only [h, if_false]
      rcases List.mem_cons.mp he with rfl | hmem
      · exact List.mem_cons_self _ _
      · exact List.mem_cons_of_mem _ (ih hmem)

theorem mem_of_mem_upsert {α : Type} (l : List (String × α)) (k : String) (v : α)
    (e : String × α) (he : e ∈ upsert l k v) : e = (k, v) ∨ e ∈ l := by
  induction l with
  | nil => simp [upsert] at he; simp [he]
  | cons e' t ih =>
    simp only [upsert] at he
    by_cases h : e'.1 = k
    · simp only [h, if_true] at he
      rcases List.mem_cons.mp he with rfl | hmem
      · exact Or.inl rfl
      · exact Or.inr (List.mem_cons_of_mem _ hmem)
    · simp only [h, if_false] at he
      rcases List.mem_cons.mp he with rfl | hmem
      · exact Or.inr (List.mem_cons_self _ _)
      · rcases ih hmem with h1 | h1
        · exact Or.inl h1
        · exact Or.inr (List.mem_cons_of_mem _ h1)

theorem slookup_upsert_isSome {α : Type} (l : List (String × α)) (k k' : String) (v : α)
    (h : (slookup (upsert l k v) k').isSome) :
    k' = k ∨ (slookup l k').isSome := by
  induction l with
  | nil =>
    simp only [upsert, slookup] at h
    by_cases hk : k = k'
    · exact Or.inl hk.symm
    · simp [hk] at h
  | cons e t ih =>
    simp only [upsert] at h
    by_cases he : e.1 = k
    · simp only [he, if_true, slookup] at h
      by_cases hk : k = k'
      · exact Or.inl hk.symm
      · simp only [hk, if_false] at h
        right
        by_cases he' : e.1 = k'
        · simp [slookup, he']
        · simp [slookup, he', h]
    · simp only [he, if_false, slookup] at h
      by_cases he' : e.1 = k'
      · exact Or.inr (by simp [slookup, he'])
      · simp only [he', if_false] at h
        rcases ih h with h1 | h1
        · exact Or.inl h1
        · exact Or.inr (by simpa [slookup, he'] using h1)

/-! ## Injectivity of the modelled Python `str` on each scalar shape -/

theorem charDigitVal_digitChar (d : Nat) (h : d < 10) :
    charDigitVal (digitChar d) = d := by
  interval_cases d <;> rfl

theorem natStrAux_spec :
    ∀ (fuel n : Nat), n < fuel →
      (natStrAux fuel n).foldl (fun acc c => acc * 10 + charDigitVal c) 0 = n ∧
      natStrAux fuel n ≠ [] ∧
      ∀ c ∈ natStrAux fuel n, charDigitVal c < 10 := by
  intro fuel
  induction fuel with
  | zero => intro n h; omega
  | succ fuel ih =>
    intro n h
    by_cases h10 : n < 10
    · refine ⟨?_, by simp [natStrAux, h10], ?_⟩
      · simp [natStrAux, h10, charDigitVal_digitChar n h10]
      · intro c hc
        simp [natStrAux, h10] at hc
        rw [hc, charDigitVal_digitChar n h10]
        exact h10
    · have hdiv : n / 10 < fuel := by
        have := Nat.div_lt_self (by omega : 0 < n) (by omega : 1 < 10)
        omega
      obtain ⟨ihv, ihne, ihd⟩ := ih (n / 10) hdiv
      have hmod : n % 10 < 10 := Nat.mod_lt _ (by omega)
      refine ⟨?_, by simp [natStrAux, h10], ?_⟩
      · simp only [natStrAux, h10, if_false, List.foldl_append, List.foldl_cons,
          List.foldl_nil, ihv, charDigitVal_digitChar _ hmod]
        omega
      · intro c hc
        simp only [natStrAux, h10, if_false, List.mem_append, List.mem_singleton] at hc
        rcases hc with hc | rfl
        · exact ihd c hc
        · rw [charDigitVal_digitChar _ hmod]
          exact hmod

theorem natStr_data_inj (a b : Nat) (h : (natStr a).data = (natStr b).data) : a = b := by
  have ha := natStrAux_spec (a + 1) a (by omega)
  have hb := natStrAux_spec (b + 1) b (by omega)
  have hdata : natStrAux (a + 1) a = natStrAux (b + 1) b := h
  rw [← ha.1, ← hb.1, hdata]

theorem natStr_data_digits (n : Nat) : ∀ c ∈ (natStr n).data, charDigitVal c < 10 :=
  (natStrAux_spec (n + 1) n (by omega)).2.2

theorem natStr_data_ne_nil (n : Nat) : (natStr n).data ≠ [] :=
  (natStrAux_spec (n + 1) n (by omega)).2.1

theorem intStr_data_inj (a b : Int) (h : (intStr a).data = (intStr b).data) : a = b := by
  cases a with
  | ofNat na =>
    cases b with
    | ofNat nb => simp only [intStr] at h; simp [natStr_data_inj na nb h]
    | negSucc nb =>
      exfalso
      simp only [intStr, String.data_append] at h
      cases hne : (natStr na).data with
      | nil => exact natStr_data_ne_nil na hne
      | cons c cs =>
        rw [hne] at h
        have hc : c = '-' := by
          have := congrArg (fun l => l.head?) h
          simpa using this
        have := natStr_data_digits na c (by rw [hne]; exact List.mem_cons_self _ _)
        rw [hc] at this
        simp [charDigitVal] at this
  | negSucc na =>
    cases b with
    | ofNat nb =>
      exfalso
      simp only [intStr, String.data_append] at h
      cases hne : (natStr nb).data with
      | nil => exact natStr_data_ne_nil nb hne
      | cons c cs =>
        rw [hne] at h
        have hc : '-' = c := by
          have := congrArg (fun l => l.head?) h
          simpa using this
        have := natStr_data_digits nb c (by rw [hne]; exact List.mem_cons_self _ _)
        rw [← hc] at this
        simp [charDigitVal] at this
    | negSucc nb =>
      simp only [intStr, String.data_append] at h
      have h2 : (natStr (na + 1)).data = (natStr (nb + 1)).data := by
        have := congrArg (fun l => l.tail) h
        simpa using this
      have h3 := natStr_data_inj _ _ h2
      have h4 : na = nb := by omega
      simp [h4]

theorem intStr_inj (a b : Int) (h : intStr a = intStr b) : a = b :=
  intStr_data_inj a b (congrArg String.data h)

theorem append_sep_inj (sep : Char) :
    ∀ (l1 l2 r1 r2 : List Char), sep ∉ l1 → sep ∉ l2 →
      l1 ++ sep :: r1 = l2 ++ sep :: r2 → l1 = l2 ∧ r1 = r2 := by
  intro l1
  induction l1 with
  | nil =>
    intro l2 r1 r2 _ h2 h
    cases l2 with
    | nil => simpa using h
    | cons c t =>
      exfalso
      simp only [List.nil_append, List.cons_append, List.cons.injEq] at h
      exact h2 (by simp [← h.1])
  | cons c t ih =>
    intro l2 r1 r2 h1 h2 h
    cases l2 with
    | nil =>
      exfalso
      simp only [List.nil_append, List.cons_append, List.cons.injEq] at h
      exact h1 (by simp [h.1])
    | cons c' t' =>
      simp only [List.cons_append, List.cons.injEq] at h
      obtain ⟨rfl, h⟩ := h
      have := ih t' r1 r2 (fun hm => h1 (List.mem_cons_of_mem _ hm))
        (fun hm => h2 (List.mem_cons_of_mem _ hm)) h
      exact ⟨by simp [this.1], this.2⟩

theorem slash_not_mem_natStr (n : Nat) : '/' ∉ (natStr n).data := by
  intro hm
  have := natStr_data_digits n '/' hm
  simp [charDigitVal] at this

theorem slash_not_mem_intStr (n : Int) : '/' ∉ (intStr n).data := by
  intro hm
  cases n with
  | ofNat m => exact slash_not_mem_natStr m hm
  | negSucc m =>
    simp only [intStr, String.data_append] at hm
    rcases List.mem_append.mp hm with h | h
    · simp at h
    · exact slash_not_mem_natStr (m + 1) h

theorem floatStr_inj (a b : Rat) (h : floatStr a = floatStr b) : a = b := by
  have hdata := congrArg String.data h
  simp only [floatStr, String.data_append] at hdata
  have hsep : (intStr a.num).data ++ '/' :: (natStr a.den).data =
      (intStr b.num).data ++ '/' :: (natStr b.den).data := by
    simpa using hdata
  obtain ⟨hn, hd⟩ := append_sep_inj '/' _ _ _ _
    (slash_not_mem_intStr a.num) (slash_not_mem_intStr b.num) hsep
  have hnum := intStr_data_inj _ _ hn
  have hden := natStr_data_inj _ _ hd
  exact Rat.ext hnum hden

/-- The shape of a successful allowed-value coercion: each primitive base
type produces its own scalar constructor. -/
theorem coerceBT_shape (p : BT) (u w : PyVal) (h : coerceBT p u = .ok w) :
    (p = .tStr ∧ ∃ s, w = .pstr s) ∨ (p = .tInt ∧ ∃ n, w = .pint n) ∨
    (p = .tFloat ∧ ∃ q, w = .pfloat q) ∨ (p = .tBool ∧ ∃ b, w = .pbool b) := by
  cases p with
  | tStr => simp only [coerceBT, Except.ok.injEq] at h; exact Or.inl ⟨rfl, _, h.symm⟩
  | tInt =>
    refine Or.inr (Or.inl ⟨rfl, ?_⟩)
    cases u with
    | pstr s =>
      simp only [coerceBT] at h
      cases hp : parseIntLit s with
      | none => rw [hp] at h; cases h
      | some n => rw [hp] at h; simp only [Except.ok.injEq] at h; exact ⟨n, h.symm⟩
    | pint n => simp only [coerceBT, Except.ok.injEq] at h; exact ⟨n, h.symm⟩
    | pbool b => simp only [coerceBT, Except.ok.injEq] at h; exact ⟨_, h.symm⟩
    | pfloat q => simp only [coerceBT, Except.ok.injEq] at h; exact ⟨_, h.symm⟩
    | pnone => simp [coerceBT] at h
    | plist items => simp [coerceBT] at h
    | pdict entries => simp [coerceBT] at h
  | tFloat =>
    refine Or.inr (Or.inr (Or.inl ⟨rfl, ?_⟩))
    cases u with
    | pstr s =>
      simp only [coerceBT] at h
      cases hp : parseFloatLit s with
      | none => rw [hp] at h; cases h
      | some q => rw [hp] at h; simp only [Except.ok.injEq] at h; exact ⟨q, h.symm⟩
    | pint n => simp only [coerceBT, Except.ok.injEq] at h; exact ⟨_, h.symm⟩
    | pbool b => simp only [coerceBT, Except.ok.injEq] at h; exact ⟨_, h.symm⟩
    | pfloat q => simp only [coerceBT, Except.ok.injEq] at h; exact ⟨q, h.symm⟩
    | pnone => simp [coerceBT] at h
    | plist items => simp [coerceBT] at h
    | pdict entries => simp [coerceBT] at h
  | tBool =>
    simp only [coerceBT, Except.ok.injEq] at h
    exact Or.inr (Or.inr (Or.inr ⟨rfl, _, h.symm⟩))
  | tBbox => simp [coerceBT] at h
  | tEnum name base entries => simp [coerceBT] at h
  | tList e => simp [coerceBT] at h
  | tModel n fs => simp [coerceBT] at h

/-- `pyStr` is injective on the outputs of a fixed primitive coercion. -/
theorem coerceBT_pyStr_inj (p : BT) (u u' w w' : PyVal)
    (h1 : coerceBT p u = .ok w) (h2 : coerceBT p u' = .ok w')
    (h : pyStr w = pyStr w') : w = w' := by
  rcases coerceBT_shape p u w h1 with ⟨hp, s, rfl⟩ | ⟨hp, n, rfl⟩ | ⟨hp, q, rfl⟩ | ⟨hp, b, rfl⟩ <;>
    subst hp
  · rcases coerceBT_shape _ u' w' h2 with ⟨_, s', rfl⟩ | ⟨hp', _⟩ | ⟨hp', _⟩ | ⟨hp', _⟩ <;>
      try cases hp'
    simpa [pyStr] using h
  · rcases coerceBT_shape _ u' w' h2 with ⟨hp', _⟩ | ⟨_, n', rfl⟩ | ⟨hp', _⟩ | ⟨hp', _⟩ <;>
      try cases hp'
    simp only [pyStr] at h
    simp [intStr_inj _ _ h]
  · rcases coerceBT_shape _ u' w' h2 with ⟨hp', _⟩ | ⟨hp', _⟩ | ⟨_, q', rfl⟩ | ⟨hp', _⟩ <;>
      try cases hp'
    simp only [pyStr] at h
    simp [floatStr_inj _ _ h]
  · rcases coerceBT_shape _ u' w' h2 with ⟨hp', _⟩ | ⟨hp', _⟩ | ⟨hp', _⟩ | ⟨_, b', rfl⟩ <;>
      try cases hp'
    cases b <;> cases b' <;> simp_all [pyStr]

theorem values_upsert_sub (l : List (String × PyVal)) (k : String) (v w : PyVal)
    (hw : w ∈ (upsert l k v).map Prod.snd) : w = v ∨ w ∈ l.map Prod.snd := by
  rw [List.mem_map] at hw
  obtain ⟨e, he, rfl⟩ := hw
  rcases mem_of_mem_upsert l k v e he with rfl | hmem
  · exact Or.inl rfl
  · exact Or.inr (List.mem_map.mpr ⟨e, hmem, rfl⟩)

theorem values_upsert_self (l : List (String × PyVal)) (k : String) (v : PyVal) :
    v ∈ (upsert l k v).map Prod.snd :=
  List.mem_map.mpr ⟨(k, v), mem_upsert_self l k v, rfl⟩

theorem values_upsert_keep (l : List (String × PyVal)) (k k' : String) (v w : PyVal)
    (hmem : (k', w) ∈ l) (hne : k' ≠ k) : w ∈ (upsert l k v).map Prod.snd :=
  List.mem_map.mpr ⟨(k', w), mem_upsert_of_mem l k v (k', w) hmem hne, rfl⟩

theorem cde_aux :
    ∀ (cvs : List PyVal) (acc : List (String × PyVal)),
      (∀ e ∈ acc, e.1 = pyStr e.2) →
      (∀ a b : PyVal, (a ∈ acc.map Prod.snd ∨ a ∈ cvs) →
        (b ∈ acc.map Prod.snd ∨ b ∈ cvs) → pyStr a = pyStr b → a = b) →
      ∀ w, w ∈ (cvs.foldl (fun a v => upsert a (pyStr v) v) acc).map Prod.snd ↔
        (w ∈ acc.map Prod.snd ∨ w ∈ cvs) := by
  intro cvs
  induction cvs with
  | nil => intro acc _ _ w; simp
  | cons v rest ih =>
    intro acc hkeys hinj w
    have hkeys' : ∀ e ∈ upsert acc (pyStr v) v, e.1 = pyStr e.2 := by
      intro e he
      rcases mem_of_mem_upsert acc (pyStr v) v e he with rfl | hmem
      · rfl
      · exact hkeys e hmem
    have hcover : ∀ a : PyVal, (a ∈ (upsert acc (pyStr v) v).map Prod.snd ∨ a ∈ rest) →
        (a ∈ acc.map Prod.snd ∨ a ∈ v :: rest) := by
      intro a ha
      rcases ha with ha | ha
      · rcases values_upsert_sub acc (pyStr v) v a ha with rfl | hmem
        · exact Or.inr (List.mem_cons_self _ _)
        · exact Or.inl hmem
      · exact Or.inr (List.mem_cons_of_mem _ ha)
    have hinj' : ∀ a b : PyVal, (a ∈ (upsert acc (pyStr v) v).map Prod.snd ∨ a ∈ rest) →
        (b ∈ (upsert acc (pyStr v) v).map Prod.snd ∨ b ∈ rest) → pyStr a = pyStr b → a = b :=
      fun a b ha hb => hinj a b (hcover a ha) (hcover b hb)
    have hfold : (v :: rest).foldl (fun a x => upsert a (pyStr x) x) acc =
        rest.foldl (fun a x => upsert a (pyStr x) x) (upsert acc (pyStr v) v) := rfl
    rw [hfold, ih (upsert acc (pyStr v) v) hkeys' hinj']
    constructor
    · intro h
      rcases h with h | h
      · rcases values_upsert_sub acc (pyStr v) v w h with rfl | hmem
        · exact Or.inr (List.mem_cons_self _ _)
        · exact Or.inl hmem
      · exact Or.inr (List.mem_cons_of_mem _ h)
    · intro h
      rcases h with h | h
      · by_cases hps : pyStr w = pyStr v
        · have : w = v := hinj w v (Or.inl h) (Or.inr (List.mem_cons_self _ _)) hps
          subst this
          exact Or.inl (values_upsert_self acc (pyStr w) w)
        · rw [List.mem_map] at h
          obtain ⟨e, he, rfl⟩ := h
          have hkey := hkeys e he
          refine Or.inl (values_upsert_keep acc (pyStr v) e.1 v e.2 (by simpa using he) ?_)
          rw [hkey]; exact hps
      · rcases List.mem_cons.mp h with rfl | hmem
        · exact Or.inl (values_upsert_self acc (pyStr w) w)
        · exact Or.inr hmem

/-- Membership in the values of a dynamic enum's member dict coincides with
membership in the coerced value list, as long as `str` is injective on that
list (which holds for the outputs of any fixed primitive coercion). -/
theorem cde_mem (cvs : List PyVal)
    (hinj : ∀ a ∈ cvs, ∀ b ∈ cvs, pyStr a = pyStr b → a = b) :
    ∀ w, w ∈ (createDynamicEnum cvs).map Prod.snd ↔ w ∈ cvs := by
  intro w
  have := cde_aux cvs [] (by simp)
    (by
      intro a b ha hb hps
      simp only [List.map_nil, List.not_mem_nil, false_or] at ha hb
      exact hinj a ha b hb hps)
    w
  simpa [createDynamicEnum] using this

/-! ## The custom-type reference graph (cycle claims) -/

/-- True when `_get_dtype` would treat the name as a custom-type reference:
neither a primitive name nor `bbox`. -/
def isCustomName (d : String) : Bool :=
  (getPrimitiveDtype d).isNone && pyLower d != "bbox"

/-- The custom-type names referenced by the fields of the registered spec of
`n` (empty when `n` is not registered). -/
def customRefs (reg : Registry) (n : String) : List String :=
  match slookup reg n with
  | some spec => (spec.fields.map (fun f => f.specification.dtype)).filter isCustomName
  | none => []

/-- The custom-type names referenced by the root fields of a config. -/
def rootRefs (cfg : SchemaConfig) : List String :=
  (cfg.fields.map (fun f => f.specification.dtype)).filter isCustomName

/-- Zero-or-more steps in the custom-type reference graph. -/
inductive StarR (reg : Registry) : String → String → Prop where
  | refl (n : String) : StarR reg n n
  | step {a b c : String} : b ∈ customRefs reg a → StarR reg b c → StarR reg a c

/-- One-or-more steps; a cycle entered at `n` is `PlusR reg n n`. -/
def PlusR (reg : Registry) (a c : String) : Prop :=
  ∃ b, b ∈ customRefs reg a ∧ StarR reg b c

/-- `n` lies on the custom-type reference walk from some root field. -/
def RootReach (cfg : SchemaConfig) (n : String) : Prop :=
  ∃ d, d ∈ rootRefs cfg ∧ StarR (cfgRegistry cfg) d n

/-- Accessibility of a name in the reference graph: every reference walk
from it terminates, i.e. no cycle is reachable from it. -/
def AccName (reg : Registry) (n : String) : Prop :=
  Acc (fun a b => a ∈ customRefs reg b) n

theorem starR_snoc (reg : Registry) (a b c : String) (h : StarR reg a b)
    (hc : c ∈ customRefs reg b) : StarR reg a c := by
  induction h with
  | refl n => exact StarR.step hc (.refl c)
  | step hb _ ih => exact StarR.step hb (ih hc)

theorem plusR_shift (reg : Registry) (x b : String) (hb : b ∈ customRefs reg x)
    (hstar : StarR reg b x) : PlusR reg b b := by
  cases hstar with
  | refl => exact ⟨_, hb, .refl _⟩
  | step hc hstar' => exact ⟨_, hc, starR_snoc reg _ _ _ hstar' hb⟩

theorem accName_no_cycle (reg : Registry) (n : String) (hacc : AccName reg n) :
    PlusR reg n n → False := by
  induction hacc with
  | intro x hx ih =>
    intro hplus
    obtain ⟨b, hb, hstar⟩ := hplus
    exact ih b hb (plusR_shift reg x b hb hstar)

theorem accName_step (reg : Registry) (a b : String) (ha : AccName reg a)
    (hb : b ∈ customRefs reg a) : AccName reg b := ha.inv hb

theorem starR_acc (reg : Registry) (a b : String) (h : StarR reg a b)
    (ha : AccName reg a) : AccName reg b := by
  induction h with
  | refl n => exact ha
  | step hb _ ih => exact ih (accName_step reg _ _ ha hb)

/-- The cache invariant of the fuel induction: every cached custom model's
name is accessible in the reference graph. -/
def InvCache (reg : Registry) (st : MakerState) : Prop :=
  ∀ k, (slookup st.customModels k).isSome → AccName reg k

theorem buildFieldWith_ok (getD : MakerState → String → Except MakerErr (BT × MakerState))
    (mn : String) (st : MakerState) (f : FieldSpec) (r : BT × Bool) (st' : MakerState)
    (h : buildFieldWith getD mn st f = .ok (r, st')) :
    ∃ t0, getD st f.specification.dtype = .ok (t0, st') := by
  unfold buildFieldWith at h
  cases hg : getD st f.specification.dtype with
  | error e => rw [hg] at h; cases h
  | ok p =>
    obtain ⟨t0, st1⟩ := p
    rw [hg] at h
    dsimp only at h
    refine ⟨t0, ?_⟩
    cases he : applyEnum mn f.name f.specification t0 with
    | error e => rw [he] at h; cases h
    | ok t1 =>
      rw [he] at h
      dsimp only at h
      cases hd : applyDim f.specification.dim t1 with
      | error e => rw [hd] at h; cases h
      | ok t2 =>
        rw [hd] at h
        simp only [Except.ok.injEq, Prod.mk.injEq] at h
        rw [h.2]

theorem buildFieldsWith_acc (reg : Registry)
    (getD : MakerState → String → Except MakerErr (BT × MakerState))
    (hgetD : ∀ st n t st', getD st n = .ok (t, st') → InvCache reg st →
      InvCache reg st' ∧ (isCustomName n = true → AccName reg n))
    (mn : String) :
    ∀ (fields : List FieldSpec) (st : MakerState) (acc fs : List (String × BT × Bool))
      (st' : MakerState),
      buildFieldsWith getD mn st fields acc = .ok (fs, st') →
      InvCache reg st →
      InvCache reg st' ∧
        ∀ f ∈ fields, isCustomName f.specification.dtype = true →
          AccName reg f.specification.dtype := by
  intro fields
  induction fields with
  | nil =>
    intro st acc fs st' h hInv
    simp only [buildFieldsWith, Except.ok.injEq, Prod.mk.injEq] at h
    exact ⟨h.2 ▸ hInv, by simp⟩
  | cons f rest ih =>
    intro st acc fs st' h hInv
    simp only [buildFieldsWith] at h
    cases hf : buildFieldWith getD mn st f with
    | error e => rw [hf] at h; cases h
    | ok p =>
      obtain ⟨⟨t, opt⟩, st1⟩ := p
      rw [hf] at h
      obtain ⟨t0, hg⟩ := buildFieldWith_ok getD mn st f (t, opt) st1 hf
      obtain ⟨hInv1, hAccF⟩ := hgetD st _ t0 st1 hg hInv
      obtain ⟨hInv', hrest⟩ := ih st1 _ fs st' h hInv1
      refine ⟨hInv', ?_⟩
      intro f' hf' hcust
      rcases List.mem_cons.mp hf' with rfl | hmem
      · exact hAccF hcust
      · exact hrest f' hmem hcust

theorem getDtypeF_acc (reg : Registry) :
    ∀ (fuel : Nat) (st : MakerState) (name : String) (t : BT) (st' : MakerState),
      getDtypeF fuel reg st name = .ok (t, st') →
      InvCache reg st →
      InvCache reg st' ∧ (isCustomName name = true → AccName reg name) := by
  intro fuel
  induction fuel with
  | zero => intro st name t st' h; cases h
  | succ fuel ih =>
    intro st name t st' h hInv
    simp only [getDtypeF] at h
    cases hp : getPrimitiveDtype name with
    | some p =>
      rw [hp] at h
      simp only [Except.ok.injEq, Prod.mk.injEq] at h
      refine ⟨h.2 ▸ hInv, ?_⟩
      intro hcust
      simp [isCustomName, hp] at hcust
    | none =>
      rw [hp] at h
      by_cases hbb : pyLower name = "bbox"
      · rw [if_pos hbb] at h
        simp only [Except.ok.injEq, Prod.mk.injEq] at h
        refine ⟨h.2 ▸ hInv, ?_⟩
        intro hcust
        simp [isCustomName, hbb] at hcust
      · rw [if_neg hbb] at h
        cases hc : slookup st.customModels name with
        | some m =>
          rw [hc] at h
          simp only [Except.ok.injEq, Prod.mk.injEq] at h
          exact ⟨h.2 ▸ hInv, fun _ => hInv name (by simp [hc])⟩
        | none =>
          rw [hc] at h
          by_cases hbld : st.building.contains name = true
          · rw [if_pos hbld] at h; cases h
          · rw [if_neg hbld] at h
            cases hr : slookup reg name with
            | none => rw [hr] at h; dsimp only at h; cases h
            | some custom_spec =>
              rw [hr] at h
              dsimp only at h
              cases hb : buildFieldsWith (fun s n => getDtypeF fuel reg s n)
                  custom_spec.name { st with building := name :: st.building }
                  custom_spec.fields [] with
              | error e => rw [hb] at h; cases h
              | ok p =>
                obtain ⟨fs, st2⟩ := p
                rw [hb] at h
                simp only [Except.ok.injEq, Prod.mk.injEq] at h
                have hst1Inv : InvCache reg { st with building := name :: st.building } :=
                  fun k hk => hInv k hk
                obtain ⟨hInv2, hfieldsAcc⟩ := buildFieldsWith_acc reg _
                  (fun s n t' s' hh hi => ih s n t' s' hh hi) custom_spec.name
                  custom_spec.fields _ [] fs st2 hb hst1Inv
                have haccname : AccName reg name := by
                  constructor
                  intro c hcm
                  simp only [customRefs, hr] at hcm
                  rw [List.mem_filter] at hcm
                  obtain ⟨hmap, hcust⟩ := hcm
                  rw [List.mem_map] at hmap
                  obtain ⟨f, hfmem, rfl⟩ := hmap
                  exact hfieldsAcc f hfmem hcust
                refine ⟨?_, fun _ => haccname⟩
                rw [← h.2]
                intro k hk
                rcases slookup_upsert_isSome st2.customModels name k
                    (.tModel custom_spec.name fs) hk with rfl | hk2
                · exact haccname
                · exact hInv2 k hk2

theorem make_ok_rootRefs_acc (st : MakerState) (cfg : SchemaConfig) (m : BT)
    (h : make st cfg = .ok m) :
    ∀ d ∈ rootRefs cfg, AccName (cfgRegistry cfg) d := by
  unfold make at h
  dsimp only at h
  cases hb : buildFieldsWith
      (fun s n => getDtypeF (cfg.custom_dtypes.length + 1) (cfgRegistry cfg) s n)
      cfg.name { customModels := [], building := [] } cfg.fields [] with
  | error e => rw [hb] at h; cases h
  | ok p =>
    obtain ⟨fs, st'⟩ := p
    rw [hb] at h
    obtain ⟨_, hfields⟩ := buildFieldsWith_acc (cfgRegistry cfg) _
      (fun s n t s' hh hi => getDtypeF_acc (cfgRegistry cfg) _ s n t s' hh hi)
      cfg.name cfg.fields _ [] fs st' hb (fun k hk => by simp [slookup] at hk)
    intro d hd
    simp only [rootRefs] at hd
    rw [List.mem_filter] at hd
    obtain ⟨hmap, hcust⟩ := hd
    rw [List.mem_map] at hmap
    obtain ⟨f, hf, rfl⟩ := hmap
    exact hfields f hf hcust

/-! ## Concrete schema configurations used by the claims -/

/-- A minimal schema: one required string field, no custom types. -/
def cfgSimple : SchemaConfig :=
  { name := "Root", fields := [{ name := "f", specification := {} }] }

/-- A schema declaring a directly self-referential custom type `A` that no
root field (nor any other type) ever references. -/
def cfgUnused : SchemaConfig :=
  { name := "Root",
    fields := [{ name := "f", specification := {} }],
    custom_dtypes :=
      [{ name := "A", fields := [{ name := "a", specification := { dtype := "A" } }] }] }

/-- A schema whose root references `A`, with the cycle `A -> B -> A`. -/
def cfgAB : SchemaConfig :=
  { name := "Root",
    fields := [{ name := "f", specification := { dtype := "A" } }],
    custom_dtypes :=
      [{ name := "A", fields := [{ name := "b", specification := { dtype := "B" } }] },
       { name := "B", fields := [{ name := "a", specification := { dtype := "A" } }] }] }

/-- A schema with one string field restricted to the values `"a"`/`"b"`. -/
def cfgEnum : SchemaConfig :=
  { name := "Root",
    fields := [{ name := "e",
                 specification := { dtype := "string",
                                    allowed_values := some [.pstr "a", .pstr "b"] } }] }

mutual

/-- Every model structure occurring inside a compiled type, the type itself
included when it is a model. -/
def subModels : BT → List BT
  | .tStr => []
  | .tInt => []
  | .tFloat => []
  | .tBool => []
  | .tBbox => []
  | .tEnum _ base _ => subModels base
  | .tList elem => subModels elem
  | .tModel n fs => .tModel n fs :: subModelsFields fs

/-- The model structures occurring inside a field list. -/
def subModelsFields : List (String × BT × Bool) → List BT
  | [] => []
  | e :: t => subModels e.2.1 ++ subModelsFields t

end

/-! ## Claims -/

/-- C1, counterexample: the claim quantifies over every schema configuration
containing a (transitively) self-referential custom type, but a cyclic
custom type that is never referenced from the root fields is never built:
`cfgUnused` declares the directly self-referential custom type `A`, yet
`make` on a fresh instance succeeds and returns the root model. -/
theorem c1_unused_cycle_succeeds :
    (∃ c ∈ cfgUnused.custom_dtypes, ∃ f ∈ c.fields, f.specification.dtype = c.name) ∧
    makeNew cfgUnused = .ok (.tModel "Root" [("f", .tStr, false)]) := by
  constructor
  · exact ⟨{ name := "A", fields := [{ name := "a", specification := { dtype := "A" } }] },
      by simp [cfgUnused], { name := "a", specification := { dtype := "A" } },
      by simp, rfl⟩
  · rfl

/-- C1, amended: for every schema configuration in which some root field's
dtype reaches, through the custom-type reference graph, a name lying on a
reference cycle, `SchemaModelMaker.make` fails with an error and returns no
partial model (a cyclic custom type unreachable from the root does not
cause failure, and an unrelated error in a field processed earlier may fail
first).  When the cycle itself is reached during building, the error is the
`CyclicDefinition` one naming the cycle's entry type, as on the concrete
schema `Root -> A -> B -> A`, which reports `A`. -/
theorem c1_reachable_cycle_fails (st : MakerState) (cfg : SchemaConfig) (n : String)
    (h1 : RootReach cfg n) (h2 : PlusR (cfgRegistry cfg) n n) :
    (∃ e, make st cfg = .error e) ∧
    makeNew cfgAB = .error (.cyclicDefinition "A") := by
  constructor
  · cases hm : make st cfg with
    | error e => exact ⟨e, rfl⟩
    | ok m =>
      exfalso
      obtain ⟨d, hd, hstar⟩ := h1
      have haccd := make_ok_rootRefs_acc st cfg m hm d hd
      have haccn := starR_acc (cfgRegistry cfg) d n hstar haccd
      exact accName_no_cycle (cfgRegistry cfg) n haccn h2
  · rfl

/-- C1, witness: the amended theorem applied to the concrete cyclic schema
`Root -> A -> B -> A`, whose cycle is reachable from the root. -/
theorem c1_reachable_cycle_fails_witness :
    (∃ e, make { customModels := [], building := [] } cfgAB = .error e) ∧
    makeNew cfgAB = .error (.cyclicDefinition "A") :=
  c1_reachable_cycle_fails { customModels := [], building := [] } cfgAB "A"
    ⟨"A", by decide, .refl "A"⟩
    ⟨"B", by decide, .step (by decide) (.refl "A")⟩

/-- C2: a model compiled by `SchemaModelMaker.make` (the root structure and
every custom-type structure built during the same compilation, i.e. every
model occurring inside the compiled type) rejects any candidate document
containing a field name not declared in its specification, because
`create_model` is invoked with `extra="forbid"`. -/
theorem c2_closed_schema (st : MakerState) (cfg : SchemaConfig) (root : BT)
    (nm : String) (fs : List (String × BT × Bool)) (kvs : List (String × PyVal))
    (k : String)
    (hmk : make st cfg = .ok root)
    (hsub : BT.tModel nm fs ∈ subModels root)
    (hk : k ∈ kvs.map Prod.fst)
    (hnk : k ∉ fs.map Prod.fst) :
    conforms (.tModel nm fs) (.pdict kvs) = false := by
  show conformsF (btSize (.tModel nm fs)) _ _ = false
  rw [show btSize (.tModel nm fs) = btFieldsSize fs + 1 from rfl]
  simp only [conformsF, Bool.and_eq_false_iff]
  left
  rw [List.mem_map] at hk
  obtain ⟨e, he, rfl⟩ := hk
  have hany : fs.any (fun fe => fe.1 = e.1) = false := by
    rw [Bool.eq_false_iff]
    intro hsome
    rw [List.any_eq_true] at hsome
    obtain ⟨fe, hfe, heq⟩ := hsome
    simp only [decide_eq_true_eq] at heq
    exact hnk (heq ▸ List.mem_map.mpr ⟨fe, hfe, rfl⟩)
  rw [Bool.eq_false_iff]
  intro hall
  rw [List.all_eq_true] at hall
  have := hall e he
  rw [hany] at this
  cases this

/-- C2, witness: the compiled `cfgSimple` model (declaring only `f`) rejects
a candidate carrying the undeclared key `g`. -/
theorem c2_closed_schema_witness :
    conforms (.tModel "Root" [("f", .tStr, false)]) (.pdict [("g", .pint 1)]) = false :=
  c2_closed_schema { customModels := [], building := [] } cfgSimple
    (.tModel "Root" [("f", .tStr, false)]) "Root" [("f", .tStr, false)]
    [("g", .pint 1)] "g" rfl
    (by simp [subModels])
    (by simp)
    (by simp)

/-- C8: `make` resets the custom-model cache, the in-progress set and the
custom-dtype registry at the start of every invocation, so its result is
independent of the instance state left by earlier calls; in particular two
runs on the same instance compile to validators that accept and reject
exactly the same candidate documents. -/
theorem c8_make_deterministic (st st' : MakerState) (cfg : SchemaConfig) :
    make st cfg = make st' cfg ∧
    (∀ m m', make st cfg = .ok m → make st' cfg = .ok m' →
      ∀ v, conforms m v = conforms m' v) := by
  refine ⟨rfl, ?_⟩
  intro m m' h h'
  have h2 : make st cfg = .ok m' := by
    rw [show make st cfg = make st' cfg from rfl]; exact h'
  rw [h] at h2
  simp only [Except.ok.injEq] at h2
  subst h2
  intro v
  rfl

/-- C8, witness: a run from a polluted instance state and a run from a fresh
state agree on `cfgSimple`, both as compiled models and on a candidate. -/
theorem c8_make_deterministic_witness :
    conforms (.tModel "Root" [("f", .tStr, false)]) (.pdict [("f", .pstr "x")]) =
      conforms (.tModel "Root" [("f", .tStr, false)]) (.pdict [("f", .pstr "x")]) :=
  (c8_make_deterministic
      { customModels := [("Leftover", .tInt)], building := ["Junk"] }
      { customModels := [], building := [] } cfgSimple).2
    (.tModel "Root" [("f", .tStr, false)]) (.tModel "Root" [("f", .tStr, false)])
    rfl rfl (.pdict [("f", .pstr "x")])

/-- The field dict of a compiled model structure. -/
def modelFields : BT → List (String × BT × Bool)
  | .tModel _ fs => fs
  | _ => []

theorem getDtypeF_prim (fuel : Nat) (reg : Registry) (s : MakerState) (n : String)
    (p : BT) (hp : getPrimitiveDtype n = some p) :
    getDtypeF (fuel + 1) reg s n = .ok (p, s) := by
  simp [getDtypeF, hp]

theorem buildFieldWith_prim_enum
    (getD : MakerState → String → Except MakerErr (BT × MakerState))
    (mn : String) (f : FieldSpec) (p : BT) (vs : List PyVal)
    (hg : ∀ s', getD s' f.specification.dtype = .ok (p, s'))
    (hav : f.specification.allowed_values = some vs) (hne : vs ≠ [])
    (hdim : f.specification.dim = 0) (s : MakerState) :
    buildFieldWith getD mn s f =
      match emapM (coerceBT p) vs with
      | .error e => .error e
      | .ok cvs =>
        .ok ((.tEnum (mn ++ "_" ++ f.name ++ "_enum") p (createDynamicEnum cvs),
          f.specification.optional), s) := by
  unfold buildFieldWith applyEnum
  rw [hg s, hav]
  dsimp only
  rw [if_neg (by simp [hne])]
  cases hc : emapM (coerceBT p) vs with
  | error e => rfl
  | ok cvs =>
    dsimp only
    unfold applyDim
    rw [hdim]
    rfl

theorem buildFieldsWith_mem_of
    (getD : MakerState → String → Except MakerErr (BT × MakerState)) (mn : String) :
    ∀ (fields : List FieldSpec) (st : MakerState) (acc fs : List (String × BT × Bool))
      (st' : MakerState),
      buildFieldsWith getD mn st fields acc = .ok (fs, st') →
      ∀ (key : String) (val : BT × Bool), (key, val) ∈ acc →
        key ∉ fields.map FieldSpec.name → (key, val) ∈ fs := by
  intro fields
  induction fields with
  | nil =>
    intro st acc fs st' h key val hmem _
    simp only [buildFieldsWith, Except.ok.injEq, Prod.mk.injEq] at h
    exact h.1 ▸ hmem
  | cons f rest ih =>
    intro st acc fs st' h key val hmem hkey
    simp only [buildFieldsWith] at h
    cases hf : buildFieldWith getD mn st f with
    | error e => rw [hf] at h; cases h
    | ok pr =>
      obtain ⟨⟨t, opt⟩, st1⟩ := pr
      rw [hf] at h
      have hkf : key ≠ f.name := fun heq => hkey (by simp [heq])
      have hkr : key ∉ rest.map FieldSpec.name := fun hm => hkey (by simp [hm])
      exact ih st1 _ fs st' h key val
        (mem_upsert_of_mem acc f.name (t, opt) (key, val) hmem hkf) hkr

theorem buildFieldsWith_entry
    (getD : MakerState → String → Except MakerErr (BT × MakerState)) (mn : String)
    (f : FieldSpec) (t0 : BT) (o0 : Bool)
    (hval : ∀ s r s', buildFieldWith getD mn s f = .ok (r, s') → r = (t0, o0)) :
    ∀ (fields : List FieldSpec) (st : MakerState) (acc fs : List (String × BT × Bool))
      (st' : MakerState),
      f ∈ fields → (fields.map FieldSpec.name).Nodup →
      buildFieldsWith getD mn st fields acc = .ok (fs, st') →
      (f.name, t0, o0) ∈ fs := by
  intro fields
  induction fields with
  | nil => intro st acc fs st' hmem; cases hmem
  | cons g rest ih =>
    intro st acc fs st' hmem hnd h
    simp only [buildFieldsWith] at h
    cases hf : buildFieldWith getD mn st g with
    | error e => rw [hf] at h; cases h
    | ok pr =>
      obtain ⟨⟨t, opt⟩, st1⟩ := pr
      rw [hf] at h
      rcases List.mem_cons.mp hmem with rfl | hrest
      · have : (t, opt) = (t0, o0) := hval st (t, opt) st1 hf
        rw [this] at h
        have hnotin : f.name ∉ rest.map FieldSpec.name := by
          simp only [List.map_cons, List.nodup_cons] at hnd
          exact hnd.1
        exact buildFieldsWith_mem_of getD mn rest st1 _ fs st' h f.name (t0, o0)
          (mem_upsert_self acc f.name (t0, o0)) hnotin
      · have hnd' : (rest.map FieldSpec.name).Nodup := by
          simp only [List.map_cons, List.nodup_cons] at hnd
          exact hnd.2
        exact ih st1 _ fs st' hrest hnd' h

theorem buildFieldsWith_ok_forall
    (getD : MakerState → String → Except MakerErr (BT × MakerState)) (mn : String) :
    ∀ (fields : List FieldSpec) (st : MakerState) (acc fs : List (String × BT × Bool))
      (st' : MakerState),
      buildFieldsWith getD mn st fields acc = .ok (fs, st') →
      ∀ f ∈ fields, ∃ s r s', buildFieldWith getD mn s f = .ok (r, s') := by
  intro fields
  induction fields with
  | nil => intro st acc fs st' _ f hmem; cases hmem
  | cons g rest ih =>
    intro st acc fs st' h f hmem
    simp only [buildFieldsWith] at h
    cases hf : buildFieldWith getD mn st g with
    | error e => rw [hf] at h; cases h
    | ok pr =>
      obtain ⟨⟨t, opt⟩, st1⟩ := pr
      rw [hf] at h
      rcases List.mem_cons.mp hmem with rfl | hrest
      · exact ⟨st, (t, opt), st1, hf⟩
      · exact ih st1 _ fs st' h f hrest

/-- C7: on a field whose spec sets a non-empty `allowed_values` over a
primitive scalar dtype (`dim = 0`; field names unique as §3 requires), a
successful `make` coerces each declared value to the primitive type and the
field's compiled type is the dynamic enumeration over exactly those coerced
values: it accepts a candidate precisely when the candidate is `==` to one
of them, and nothing else. -/
theorem c7_allowed_values_enum (st : MakerState) (cfg : SchemaConfig) (root : BT)
    (fname : String) (spec : DtypeSpec) (vs : List PyVal) (p : BT)
    (hf : FieldSpec.mk fname spec ∈ cfg.fields)
    (hnodup : (cfg.fields.map FieldSpec.name).Nodup)
    (hav : spec.allowed_values = some vs) (hne : vs ≠ [])
    (hp : getPrimitiveDtype spec.dtype = some p)
    (hdim : spec.dim = 0)
    (hmk : make st cfg = .ok root) :
    ∃ cvs, emapM (coerceBT p) vs = .ok cvs ∧
      (fname, BT.tEnum (cfg.name ++ "_" ++ fname ++ "_enum") p (createDynamicEnum cvs),
        spec.optional) ∈ modelFields root ∧
      ∀ v, conforms (BT.tEnum (cfg.name ++ "_" ++ fname ++ "_enum") p
        (createDynamicEnum cvs)) v = true ↔ ∃ w ∈ cvs, pyEq v w = true := by
  unfold make at hmk
  dsimp only at hmk
  cases hb : buildFieldsWith
      (fun s n => getDtypeF (cfg.custom_dtypes.length + 1) (cfgRegistry cfg) s n)
      cfg.name { customModels := [], building := [] } cfg.fields [] with
  | error e => rw [hb] at hmk; cases hmk
  | ok pr =>
    obtain ⟨fs, stf⟩ := pr
    rw [hb] at hmk
    simp only [Except.ok.injEq] at hmk
    have hg : ∀ s', (fun s n => getDtypeF (cfg.custom_dtypes.length + 1)
        (cfgRegistry cfg) s n) s' (FieldSpec.mk fname spec).specification.dtype =
        .ok (p, s') :=
      fun s' => getDtypeF_prim cfg.custom_dtypes.length (cfgRegistry cfg) s' spec.dtype p hp
    have hfw := buildFieldWith_prim_enum _ cfg.name (FieldSpec.mk fname spec) p vs hg
      hav hne hdim
    obtain ⟨s0, r0, s1, hok⟩ := buildFieldsWith_ok_forall _ cfg.name cfg.fields
      { customModels := [], building := [] } [] fs stf hb (FieldSpec.mk fname spec) hf
    rw [hfw s0] at hok
    cases hc : emapM (coerceBT p) vs with
    | error e => rw [hc] at hok; cases hok
    | ok cvs =>
      refine ⟨cvs, rfl, ?_, ?_⟩
      · have hval : ∀ s r s', buildFieldWith
            (fun s n => getDtypeF (cfg.custom_dtypes.length + 1) (cfgRegistry cfg) s n)
            cfg.name s (FieldSpec.mk fname spec) = .ok (r, s') →
            r = (BT.tEnum (cfg.name ++ "_" ++ fname ++ "_enum") p (createDynamicEnum cvs),
              spec.optional) := by
          intro s r s' hbl
          rw [hfw s, hc] at hbl
          simp only [Except.ok.injEq, Prod.mk.injEq] at hbl
          exact hbl.1.symm
        have := buildFieldsWith_entry _ cfg.name (FieldSpec.mk fname spec) _ _ hval
          cfg.fields { customModels := [], building := [] } [] fs stf hf hnodup hb
        rw [← hmk]
        simpa [modelFields] using this
      · intro v
        have hinj : ∀ a ∈ cvs, ∀ b ∈ cvs, pyStr a = pyStr b → a = b := by
          intro a ha b hbm hps
          obtain ⟨ua, _, hca⟩ := emapM_ok_mem (coerceBT p) vs cvs hc a ha
          obtain ⟨ub, _, hcb⟩ := emapM_ok_mem (coerceBT p) vs cvs hc b hbm
          exact coerceBT_pyStr_inj p ua ub a b hca hcb hps
        show conformsF (btSize (BT.tEnum (cfg.name ++ "_" ++ fname ++ "_enum") p
          (createDynamicEnum cvs))) _ _ = true ↔ _
        rw [show btSize (BT.tEnum (cfg.name ++ "_" ++ fname ++ "_enum") p
          (createDynamicEnum cvs)) = btSize p + 1 from rfl]
        simp only [conformsF, List.any_eq_true]
        constructor
        · intro hex
          obtain ⟨w, hw, heq⟩ := hex
          exact ⟨w, (cde_mem cvs hinj w).mp hw, heq⟩
        · intro hex
          obtain ⟨w, hw, heq⟩ := hex
          exact ⟨w, (cde_mem cvs hinj w).mpr hw, heq⟩

/-- C7, witness: the amended theorem instantiated on `cfgEnum`, whose field
`e` is a string restricted to `["a", "b"]`. -/
theorem c7_allowed_values_enum_witness :
    ∃ cvs, emapM (coerceBT .tStr) [.pstr "a", .pstr "b"] = .ok cvs ∧
      ("e", BT.tEnum ("Root" ++ "_" ++ "e" ++ "_enum") .tStr (createDynamicEnum cvs),
        false) ∈ modelFields (.tModel "Root"
          [("e", .tEnum "Root_e_enum" .tStr [("a", .pstr "a"), ("b", .pstr "b")], false)]) ∧
      ∀ v, conforms (BT.tEnum ("Root" ++ "_" ++ "e" ++ "_enum") .tStr
        (createDynamicEnum cvs)) v = true ↔
        ∃ w ∈ cvs, pyEq v w = true :=
  c7_allowed_values_enum { customModels := [], building := [] } cfgEnum
    (.tModel "Root"
      [("e", .tEnum "Root_e_enum" .tStr [("a", .pstr "a"), ("b", .pstr "b")], false)])
    "e" { dtype := "string", allowed_values := some [.pstr "a", .pstr "b"] }
    [.pstr "a", .pstr "b"] .tStr
    (by simp [cfgEnum])
    (by simp [cfgEnum])
    rfl
    (by simp)
    rfl
    rfl
    rfl

/-- C9: converter lookup is case-insensitive (two names with the same
lower-case form resolve identically), and looking up a name with no
registered converter fails with the `Unsupported format type` error listing
the registered names `openai` and `anthropic`. -/
theorem c9_converter_lookup (s t : String) (h : pyLower s = pyLower t) :
    factoryCreate s = factoryCreate t ∧
    ((slookup converterRegistry (pyLower s)).isNone →
      factoryCreate s = .error ("Unsupported format type: " ++ pyLower s ++
        ". Supported formats: " ++ "openai, anthropic")) := by
  constructor
  · unfold factoryCreate
    rw [h]
  · intro hn
    rw [Option.isNone_iff_eq_none] at hn
    unfold factoryCreate
    dsimp only
    rw [hn]
    rfl

/-- C9, witness: looking up `"unknown"` fails listing both registered
names. -/
theorem c9_converter_lookup_witness :
    factoryCreate "unknown" =
      .error "Unsupported format type: unknown. Supported formats: openai, anthropic" :=
  (c9_converter_lookup "unknown" "unknown" rfl).2 (by decide)

/-! ## Formatter claims -/

/-- The iterable group of the C3 example: one text item `"v={x}"`. -/
def rowsItems : List GroupItem := [.ctI (.text "v={x}" ["x"])]

/-- The C3 example scope: `rows` bound to two mappings. -/
def rowsScope : Scope :=
  [("rows", .plist [.pdict [("x", .pint 1)], .pdict [("x", .pint 2)]])]

/-- C3: iteration-source resolution for a group declaring `input_key`.
A sequence whose first element is a mapping is used as-is in order; any
other sequence is wrapped per-element as a single-key map under the key;
a missing or non-sequence value yields an empty source and the group
contributes no blocks; and the `rows` example formats to exactly the text
blocks `v=1` then `v=2`. -/
theorem c3_input_key_iteration (items : List GroupItem) (k : String) (vars : Scope)
    (hk : k ≠ "") :
    (∀ d t, slookup vars k = some (.plist (.pdict d :: t)) →
      findIterationSource items (some k) vars = .ok (.pdict d :: t)) ∧
    (∀ l, slookup vars k = some (.plist l) → (∀ d t, l ≠ .pdict d :: t) →
      findIterationSource items (some k) vars =
        .ok (l.map fun item => .pdict [(k, item)])) ∧
    ((∀ l, slookup vars k ≠ some (.plist l)) →
      findIterationSource items (some k) vars = .ok [] ∧
      groupFormat (.iterable items (some k)) vars = .ok []) ∧
    groupFormat (.iterable rowsItems (some "rows")) rowsScope =
      .ok [.textB "v=1", .textB "v=2"] := by
  refine ⟨?_, ?_, ?_, rfl⟩
  · intro d t hl
    unfold findIterationSource
    dsimp only
    rw [if_neg hk, hl]
  · intro l hl hnd
    unfold findIterationSource
    dsimp only
    rw [if_neg hk, hl]
    cases l with
    | nil => rfl
    | cons x xs =>
      cases x with
      | pdict d => exact absurd rfl (hnd d xs)
      | pstr s => rfl
      | pint n => rfl
      | pbool b => rfl
      | pfloat q => rfl
      | pnone => rfl
      | plist its => rfl
  · intro hnl
    have hsrc : findIterationSource items (some k) vars = .ok [] := by
      unfold findIterationSource
      dsimp only
      rw [if_neg hk]
      cases hv : slookup vars k with
      | none => rfl
      | some v =>
        cases v with
        | plist l => exact absurd hv (hnl l)
        | pstr s => rfl
        | pint n => rfl
        | pbool b => rfl
        | pfloat q => rfl
        | pnone => rfl
        | pdict es => rfl
    refine ⟨hsrc, ?_⟩
    unfold groupFormat
    simp only [fmtGroupItemF]
    rw [hsrc]
    rfl

/-- C3, witness: the theorem applied to the `rows` scope, whose value is a
list of mappings, so the per-iteration scopes are exactly that list. -/
theorem c3_input_key_iteration_witness :
    findIterationSource rowsItems (some "rows") rowsScope =
      .ok [.pdict [("x", .pint 1)], .pdict [("x", .pint 2)]] :=
  (c3_input_key_iteration rowsItems "rows" rowsScope (by decide)).1
    [("x", .pint 1)] [.pdict [("x", .pint 2)]] rfl

/-- The C4 group: one text item referencing the variables `a` and `b`. -/
def g4Items : List GroupItem := [.ctI (.text "{a}{b}" ["a", "b"])]

/-- The C4 defect scope: candidate list `b` is shorter than `a`. -/
def s4 : Scope := [("a", .plist [.pint 1, .pint 2]), ("b", .plist [.pint 9])]

/-- A C4 scope whose candidate lists are aligned. -/
def s4ok : Scope :=
  [("a", .plist [.pint 1, .pint 2]), ("b", .plist [.pint 8, .pint 9])]

/-- C4: in the parallel-lists branch (no `input_key`, the first candidate
list found among the referenced names not headed by a mapping), the number
of iterations is the length of that first candidate list, and every
candidate list is indexed at every index with no length-equality check: on
the concrete scope where `b` is shorter than `a`, formatting raises
`IndexError`. -/
theorem c4_parallel_lists_no_length_check (items : List GroupItem) (vars : Scope)
    (firstVar : String) (rest : List String) (firstList : List PyVal)
    (hcand : (collectVars items).filter
        (fun v => match slookup vars v with | some (.plist _) => true | _ => false) =
      firstVar :: rest)
    (hfirst : slookup vars firstVar = some (.plist firstList))
    (hhd : ∀ d t, firstList ≠ .pdict d :: t) :
    (∀ src, findIterationSource items none vars = .ok src →
      src.length = firstList.length) ∧
    groupFormat (.iterable g4Items none) s4 = .error .indexError := by
  refine ⟨?_, rfl⟩
  intro src hsrc
  unfold findIterationSource at hsrc
  dsimp only at hsrc
  have hne : (collectVars items).isEmpty = false := by
    cases hcv : collectVars items with
    | nil => rw [hcv] at hcand; simp at hcand
    | cons a t => simp [List.isEmpty]
  rw [hne] at hsrc
  simp only [Bool.false_eq_true, if_false] at hsrc
  rw [hcand] at hsrc
  dsimp only at hsrc
  rw [hfirst] at hsrc
  cases firstList with
  | nil =>
    simp only [List.length_nil, List.range_zero, emapM] at hsrc
    simp only [Except.ok.injEq] at hsrc
    simp [← hsrc]
  | cons x xs =>
    cases x with
    | pdict d => exact absurd rfl (hhd d xs)
    | pstr s =>
      have := emapM_ok_length _ _ _ hsrc
      simpa [List.length_range] using this
    | pint n =>
      have := emapM_ok_length _ _ _ hsrc
      simpa [List.length_range] using this
    | pbool b =>
      have := emapM_ok_length _ _ _ hsrc
      simpa [List.length_range] using this
    | pfloat q =>
      have := emapM_ok_length _ _ _ hsrc
      simpa [List.length_range] using this
    | pnone =>
      have := emapM_ok_length _ _ _ hsrc
      simpa [List.length_range] using this
    | plist its =>
      have := emapM_ok_length _ _ _ hsrc
      simpa [List.length_range] using this

/-- C4, witness: on the aligned scope the iteration count equals the first
candidate list's length, and on the misaligned scope the group raises
`IndexError`. -/
theorem c4_parallel_lists_no_length_check_witness :
    ([PyVal.pdict [("a", .pint 1), ("b", .pint 8)],
      PyVal.pdict [("a", .pint 2), ("b", .pint 9)]].length =
      [PyVal.pint 1, PyVal.pint 2].length) ∧
    groupFormat (.iterable g4Items none) s4 = .error .indexError :=
  ⟨(c4_parallel_lists_no_length_check g4Items s4ok "a" ["b"] [.pint 1, .pint 2]
      rfl rfl (by simp)).1 _ rfl,
   (c4_parallel_lists_no_length_check g4Items s4 "a" ["b"] [.pint 1, .pint 2]
      rfl rfl (by simp)).2⟩

/-- C5, counterexample: `ContentTemplateFormatter._format_text` (cited by
the claim) does **not** restrict the scope to the declared
`input_variables`: the undeclared variable `other` is substituted into the
template, where the restricted semantics (as implemented by
`BasePromptFormatter._process_text_template`) raises `KeyError`. -/
theorem c5_format_text_not_restricted :
    formatText (.text "A{other}" ["name"]) [("other", .pstr "B")] = .ok [.textB "AB"] ∧
    "other" ∉ (["name"] : List String) ∧
    processTextTemplate { value := "A{other}", input_variables := ["name"] }
      [("other", .pstr "B")] "f-string" = .error (.keyError "other") :=
  ⟨rfl, by decide, rfl⟩

theorem filtered_vars_agree (vm vm' : Scope) :
    ∀ (ivs : List String),
      (∀ k ∈ ivs, slookup vm k = slookup vm' k) →
      ∀ acc : Scope,
        ivs.foldl (fun acc k =>
          match slookup vm k with
          | some v => upsert acc k v
          | none => acc) acc =
        ivs.foldl (fun acc k =>
          match slookup vm' k with
          | some v => upsert acc k v
          | none => acc) acc := by
  intro ivs
  induction ivs with
  | nil => intro _ acc; rfl
  | cons k t ih =>
    intro hagree acc
    simp only [List.foldl_cons]
    rw [hagree k (List.mem_cons_self _ _)]
    exact ih (fun k' hk' => hagree k' (List.mem_cons_of_mem _ hk')) _

/-- C5, amended: it is `BasePromptFormatter._process_text_template`
(`formatter/base.py`) that restricts the variable scope to exactly the
declared `input_variables` before substitution: its result depends only on
the lookups of the declared keys, so declared keys absent from the scope
are simply omitted by the restriction and undeclared extra variables are
dropped and can never cause an error; the `Hello {name}` example yields
exactly one text content with `Hello World`.
(`ContentTemplateFormatter._format_text` in `template_formatter` formats
against the full scope and performs no such restriction.) -/
theorem c5_base_restricts_scope (item : BTextTemplate) (vm vm' : Scope) (tf : String)
    (hne : item.input_variables ≠ [])
    (hagree : ∀ k ∈ item.input_variables, slookup vm k = slookup vm' k) :
    processTextTemplate item vm tf = processTextTemplate item vm' tf ∧
    processTextTemplate { value := "Hello {name}", input_variables := ["name"] }
      [("name", .pstr "World"), ("other", .pstr "ignored")] "f-string" =
      .ok [.jobj [("type", .jstr "text"), ("text", .jstr "Hello World")]] := by
  have _ := hne
  refine ⟨?_, rfl⟩
  unfold processTextTemplate
  dsimp only
  rw [filtered_vars_agree vm vm' item.input_variables hagree []]

/-- C5, witness: the amended theorem applied to the example template with
two scopes differing only in the undeclared variable `other`. -/
theorem c5_base_restricts_scope_witness :
    processTextTemplate { value := "Hello {name}", input_variables := ["name"] }
      [("name", .pstr "World"), ("other", .pstr "ignored")] "f-string" =
      processTextTemplate { value := "Hello {name}", input_variables := ["name"] }
      [("name", .pstr "World")] "f-string" :=
  (c5_base_restricts_scope { value := "Hello {name}", input_variables := ["name"] }
      [("name", .pstr "World"), ("other", .pstr "ignored")]
      [("name", .pstr "World")] "f-string" (by simp)
      (by intro k hk; simp at hk; subst hk; rfl)).1

/-- C6, counterexample: a value that starts with `data:` but contains no
comma is silently dropped by the Anthropic converter — no base64 source
object (nor any content item) is emitted for it, contrary to the claim that
every `data:`-prefixed value yields a base64 source object. -/
theorem c6_data_url_no_comma_dropped :
    pyStartsWith "data:nocomma" "data:" = true ∧
    anthropicImageItems "data:nocomma" = [] ∧
    anthropicConvert [("user", [.imageB (.raw "data:nocomma")])] =
      [.jobj [("role", .jstr "user"), ("content", .jarr [])]] :=
  ⟨rfl, rfl, rfl⟩

/-- C6, amended: a `data:`-prefixed image value **containing a comma**
splits at the first comma into header and payload and is emitted as one
base64 source object whose media type is extracted from the header
(`split(":")[1].split(";")[0]`, defaulting to `image/png` when the header
lacks a `;` or the segment is empty); a `data:` value without a comma is
silently dropped; every other value is emitted as a URL source object; and
the `data:image/png;base64,QUJD` example converts exactly as claimed. -/
theorem c6_anthropic_image_conversion (url header data : String) :
    (pyStartsWith url "data:" = true → splitFirst url ',' = some (header, data) →
      anthropicImageItems url =
        [.jobj [("type", .jstr "image"),
                ("source", .jobj [("type", .jstr "base64"),
                                  ("media_type", .jstr (anthropicMediaType header)),
                                  ("data", .jstr data)])]]) ∧
    (pyStartsWith url "data:" = false →
      anthropicImageItems url =
        [.jobj [("type", .jstr "image"),
                ("source", .jobj [("type", .jstr "url"), ("url", .jstr url)])]]) ∧
    anthropicConvert [("user", [.imageB (.raw "data:image/png;base64,QUJD")])] =
      [.jobj [("role", .jstr "user"),
              ("content", .jarr [.jobj [("type", .jstr "image"),
                ("source", .jobj [("type", .jstr "base64"),
                                  ("media_type", .jstr "image/png"),
                                  ("data", .jstr "QUJD")])]])]] := by
  refine ⟨?_, ?_, rfl⟩
  · intro hd hsp
    simp [anthropicImageItems, hd, hsp]
  · intro hd
    simp [anthropicImageItems, hd]

/-- C6, witness: the amended theorem applied to the claim's example value. -/
theorem c6_anthropic_image_conversion_witness :
    anthropicImageItems "data:image/png;base64,QUJD" =
      [.jobj [("type", .jstr "image"),
              ("source", .jobj [("type", .jstr "base64"),
                                ("media_type", .jstr "image/png"),
                                ("data", .jstr "QUJD")])]] :=
  (c6_anthropic_image_conversion "data:image/png;base64,QUJD"
      "data:image/png;base64" "QUJD").1 rfl rfl

/-- The C10 counterexample template: one iterable message over `input_key`
`k` whose single static group holds one image item. -/
def tpl10 : PromptTemplate :=
  { name := "t", templates := [.iterable "user" [.static [.image "img"]] (some "k")] }

/-- C10, counterexample: with `input_key` bound to a non-list value (a
mapping without the image variable), `PromptTemplateFormatter.format` does
wrap the value and iterate once, but the message's block list comes out
**empty** — contradicting the claim that it never yields an empty block
list for that message. -/
theorem c10_wrapped_value_can_yield_empty :
    slookup [("k", PyVal.pdict [("a", .pint 1)])] "k" = some (.pdict [("a", .pint 1)]) ∧
    formatPrompt tpl10 [("k", .pdict [("a", .pint 1)])] = .ok [("user", [])] :=
  ⟨rfl, rfl⟩

/-- C10, amended: for an iterable message template whose `input_key` is
present in the input and bound to a non-list value, `format` wraps that
value in a one-element list and performs exactly one iteration pass with it
as the document scope (stated for mapping values — a non-mapping scope
fails when first used): the message's result is exactly whatever the
content groups produce on that single pass, which may legitimately be an
empty block list, and whose computation may still raise downstream
errors. -/
theorem c10_nonlist_input_key_single_pass (role : String) (contents : List CTGroup)
    (k : String) (input_data : Scope) (kvs : List (String × PyVal))
    (hk : k ≠ "")
    (hv : slookup input_data k = some (.pdict kvs)) :
    fmtMessage (.iterable role contents (some k)) input_data =
      (emapM (fun g => groupFormat g kvs) contents).map
        (fun bs => (role, bs.flatten)) := by
  unfold fmtMessage
  dsimp only
  rw [if_neg hk, hv]
  dsimp only
  cases hgc : emapM (fun g => groupFormat g kvs) contents with
  | error e => simp [emapM, hgc, Except.map]
  | ok bs => simp [emapM, hgc, Except.map]

/-- C10, witness: the amended theorem applied to the counterexample
template's message, with a mapping value bound to `k`. -/
theorem c10_nonlist_input_key_single_pass_witness :
    fmtMessage (.iterable "user" [.static [.image "img"]] (some "k"))
      [("k", .pdict [("a", .pint 1)])] =
      (emapM (fun g => groupFormat g [("a", .pint 1)])
        [CTGroup.static [.image "img"]]).map (fun bs => ("user", bs.flatten)) :=
  c10_nonlist_input_key_single_pass "user" [.static [.image "img"]] "k"
    [("k", .pdict [("a", .pint 1)])] [("a", .pint 1)] (by decide) rfl
